import Mathlib

/-!
Shallow embedding of the `qt-tablewidget-cpp` table component
(`src/tableWidget.h`): the `QStandardItemModel`-backed grid
(`CustomTableModel` wrapped in `TableWidget`), the mutation API
(`setData`, `appendRow`, `appendRows`, `deleteRow`), the header and
field-name bookkeeping, the CSV/JSON serializers, the per-column
permission flags, and the context-menu paste path.

Strings (`QString`) are modelled as lists of characters. The
`QSortFilterProxyModel` between the view and the item model is the
identity mapping while no filter is active, so `model()` observations
coincide with `tableModel` observations; the embedding therefore works
directly on the item model.
-/

/-- A `QString`, modelled as its character sequence. -/
abbrev Str := List Char

/-- A row of `n` cells holding no items, as produced when
`QStandardItemModel` grows its row count. -/
def blankRow (n : Nat) : List (Option Str) := List.replicate n none

/-- Truncate or extend a list of optional entries to length `n`,
padding with `none`: how `QStandardItemModel` reshapes item rows,
horizontal header data and vertical header data when the column or row
count changes. -/
def padTo (n : Nat) (l : List (Option Str)) : List (Option Str) :=
  l.take n ++ List.replicate (n - l.length) none

/-- State of the `CustomTableModel` (a `QStandardItemModel`): the item
grid, the column count, and the horizontal/vertical header data. A
`none` entry stands for an absent item or an unset header label. The
row count is `items.length`. -/
structure Model where
  items : List (List (Option Str))
  cols : Nat
  hlabels : List (Option Str)
  vlabels : List (Option Str)
deriving DecidableEq

def Model.rowCount (m : Model) : Nat := m.items.length

def Model.columnCount (m : Model) : Nat := m.cols

/-- `model()->data(model()->index(r, c)).toString()`: the text of the
item at `(r, c)`, or the empty string when no item is there or the
index is out of range. -/
def Model.data (m : Model) (r c : Nat) : Str :=
  ((m.items.getD r []).getD c none).getD []

/-- Qt's default horizontal (or vertical) header datum for section
`c`: the 1-based section number rendered as text. -/
def defaultHeaderLabel (c : Nat) : Str := (Nat.repr (c + 1)).data

/-- `model()->headerData(c, Qt::Horizontal).toString()` for a section
of the model: the stored label when set, otherwise the default
section number. -/
def Model.headerData (m : Model) (c : Nat) : Str :=
  (m.hlabels.getD c none).getD (defaultHeaderLabel c)

/-- `model()->headerData(r, Qt::Vertical).toString()` for a section of
the model. -/
def Model.verticalHeaderData (m : Model) (r : Nat) : Str :=
  (m.vlabels.getD r none).getD (defaultHeaderLabel r)

/-- `QStandardItemModel::clear()`: removes every item and all header
data, leaving a 0 x 0 model. -/
def Model.clear : Model := ⟨[], 0, [], []⟩

/-- `QStandardItemModel::setRowCount(n)`: truncates or extends the row
list, new rows holding no items; vertical header data is reshaped
alongside. -/
def Model.setRowCount (m : Model) (n : Nat) : Model :=
  { m with
    items := m.items.take n ++ List.replicate (n - m.items.length) (blankRow m.cols),
    vlabels := padTo n m.vlabels }

/-- `QStandardItemModel::setColumnCount(n)`: every row and the
horizontal header data are truncated or extended to `n` entries. -/
def Model.setColumnCount (m : Model) (n : Nat) : Model :=
  { m with
    cols := n,
    items := m.items.map (padTo n),
    hlabels := padTo n m.hlabels }

/-- `QStandardItemModel::setItem(r, c, new QStandardItem(v))`: the
model first grows (never shrinks) to contain `(r, c)`, then the item
at that position is replaced. -/
def Model.setItem (m : Model) (r c : Nat) (v : Str) : Model :=
  let m1 := (m.setColumnCount (max m.cols (c + 1))).setRowCount (max m.items.length (r + 1))
  { m1 with items := m1.items.set r ((m1.items.getD r []).set c (some v)) }

/-- `QStandardItemModel::setHorizontalHeaderLabels(labels)`: the
column count grows to `labels.length` if necessary, and the first
`labels.length` header entries are set; entries beyond keep their
previous data. -/
def Model.setHorizontalHeaderLabels (m : Model) (labels : List Str) : Model :=
  let m1 := m.setColumnCount (max m.cols labels.length)
  { m1 with hlabels := labels.map some ++ m1.hlabels.drop labels.length }

/-- `QStandardItemModel::setVerticalHeaderLabels(labels)`: the row
count grows to `labels.length` if necessary, and the first
`labels.length` vertical header entries are set. -/
def Model.setVerticalHeaderLabels (m : Model) (labels : List Str) : Model :=
  let m1 := m.setRowCount (max m.items.length labels.length)
  { m1 with vlabels := labels.map some ++ m1.vlabels.drop labels.length }

/-- `QStandardItemModel::removeRow(r)` for an in-range `r`: the row
and its vertical header datum are removed, later rows shifting up. -/
def Model.removeRow (m : Model) (r : Nat) : Model :=
  { m with items := m.items.eraseIdx r, vlabels := m.vlabels.eraseIdx r }

/-- Well-formedness of a model state: every reachable
`QStandardItemModel` state is rectangular (each row has exactly `cols`
cells) and its header-data lists track the column and row counts. -/
def Model.WF (m : Model) : Prop :=
  (∀ row ∈ m.items, row.length = m.cols) ∧
    m.hlabels.length = m.cols ∧ m.vlabels.length = m.items.length

instance (m : Model) : Decidable m.WF := by
  unfold Model.WF; infer_instance

/-- State of a `TableWidget`: the wrapped item model plus the widget's
own `headers`, `fieldNames` and `verticalHeaders` members. -/
structure TableWidget where
  model : Model
  headers : List Str
  fieldNames : List Str
  verticalHeaders : List Str
deriving DecidableEq

/-- `TableWidget::rowCount()` (the proxy is the identity mapping with
no filter active). -/
def TableWidget.rowCount (s : TableWidget) : Nat := s.model.rowCount

/-- `TableWidget::columnCount()`. -/
def TableWidget.columnCount (s : TableWidget) : Nat := s.model.cols

/-- The cell text observed at `(r, c)` through the view. -/
def TableWidget.cellData (s : TableWidget) (r c : Nat) : Str := s.model.data r c

/-- `TableWidget::setHorizontalHeaders(horizontalHeaders, fieldNames_)`. -/
def TableWidget.setHorizontalHeaders (s : TableWidget) (horizontalHeaders fieldNames_ : List Str) :
    TableWidget :=
  { s with
    headers := horizontalHeaders,
    model := s.model.setHorizontalHeaderLabels horizontalHeaders,
    fieldNames := fieldNames_ }

/-- `TableWidget::setFieldNames(fieldNames_)`. -/
def TableWidget.setFieldNames (s : TableWidget) (fieldNames_ : List Str) : TableWidget :=
  { s with fieldNames := fieldNames_ }

/-- `TableWidget::setVerticalHeaders(headers)`: stores the list and,
when it is non-empty, pushes it into the model. -/
def TableWidget.setVerticalHeaders (s : TableWidget) (headers : List Str) : TableWidget :=
  { s with
    verticalHeaders := headers,
    model := if headers.isEmpty then s.model else s.model.setVerticalHeaderLabels headers }

/-- `TableWidget::resetHeaders()`: re-applies the stored horizontal
headers and, when configured, the stored vertical headers (the
section-resize-mode calls are pure UI and not modelled). -/
def TableWidget.resetHeaders (s : TableWidget) : TableWidget :=
  let m1 := s.model.setHorizontalHeaderLabels s.headers
  { s with
    model := if s.verticalHeaders.isEmpty then m1 else m1.setVerticalHeaderLabels s.verticalHeaders }

/-- The inner loop of `TableWidget::setData`: sets the items of row
`r` from column `c` on, one `setItem` per entry of the row data. -/
def Model.setCellsFrom (m : Model) (r c : Nat) : List Str → Model
  | [] => m
  | v :: rest => (m.setItem r c v).setCellsFrom r (c + 1) rest

/-- The outer loop of `TableWidget::setData`: one `setCellsFrom` per
data row, starting at row `r`. -/
def Model.setAllCells (m : Model) (r : Nat) : List (List Str) → Model
  | [] => m
  | rowVals :: rest => (m.setCellsFrom r 0 rowVals).setAllCells (r + 1) rest

/-- `TableWidget::setData(data)`: clears the model, sets the row count
to `data.size()`, the column count to the first row's size (0 when
`data` is empty), restores the headers via `resetHeaders`, then sets
each provided cell with `setItem`. -/
def TableWidget.setData (s : TableWidget) (data : List (List Str)) : TableWidget :=
  let m2 := Model.clear.setRowCount data.length
  let m3 := m2.setColumnCount 0
  let m4 := match data with
    | [] => m3
    | d0 :: _ => m3.setColumnCount d0.length
  let s1 := TableWidget.resetHeaders { s with model := m4 }
  { s1 with model := s1.model.setAllCells 0 data }

/-- The loop of `TableWidget::setRowData(row, rowData)` writing
columns `0` to `n - 1`: each column `c` gets a fresh item whose text
is `rowData.value(c)` (the empty string beyond `rowData`'s end). -/
def Model.setRowFrom (m : Model) (r : Nat) (d : List Str) : Nat → Model
  | 0 => m
  | n + 1 => (m.setRowFrom r d n).setItem r n (d.getD n [])

/-- `TableWidget::setRowData(row, rowData)`: writes every column of
row `row`. The loop bound `columnCount()` is re-read each iteration in
the source but never changes, because every write stays within the
current column range. -/
def Model.setRowData (m : Model) (r : Nat) (d : List Str) : Model :=
  m.setRowFrom r d m.cols

/-- `TableWidget::appendRow(rowData)`: grows the row count by one and
fills the new last row. -/
def TableWidget.appendRow (s : TableWidget) (rowData : List Str) : TableWidget :=
  let row := s.model.rowCount
  { s with model := (s.model.setRowCount (row + 1)).setRowData row rowData }

/-- `TableWidget::deleteRow(row)`: removes the row only when the
(signed) index is in range, otherwise does nothing. -/
def TableWidget.deleteRow (s : TableWidget) (row : Int) : TableWidget :=
  if 0 ≤ row ∧ row < (s.model.rowCount : Int) then
    { s with model := s.model.removeRow row.toNat }
  else s

/-- The loop of `TableWidget::appendRows`: one `setRowData` per input
row, at consecutive indices starting at `base`. -/
def Model.appendRowsLoop (m : Model) (base : Nat) : List (List Str) → Model
  | [] => m
  | d :: rest => (m.setRowData base d).appendRowsLoop (base + 1) rest

/-- `TableWidget::appendRows(rowsData)`: grows the row count by
`rowsData.size()` at once, then fills the new rows in order. -/
def TableWidget.appendRows (s : TableWidget) (rowsData : List (List Str)) : TableWidget :=
  let cur := s.model.rowCount
  { s with model := (s.model.setRowCount (cur + rowsData.length)).appendRowsLoop cur rowsData }

/-- `TableWidget::clearTable()`. -/
def TableWidget.clearTable (s : TableWidget) : TableWidget :=
  { s with model := Model.clear }

/-- `TableWidget::useFields()`: the stored field names are used for
serialization exactly when they are as many as the stored headers and
as the current column count. -/
def TableWidget.useFields (s : TableWidget) : Bool :=
  decide ((s.headers.length = s.fieldNames.length) ∧ (s.fieldNames.length = s.model.cols))

/-- Join a list of strings with a separator, mirroring the serializer
loops that prepend the separator for every column after the first. -/
def joinSep (sep : Str) : List Str → Str
  | [] => []
  | [x] => x
  | x :: y :: t => x ++ sep ++ joinSep sep (y :: t)

/-- CSV escaping in `TableWidget::generateCsvData`: a cell value is
wrapped in double quotes exactly when it contains a comma. -/
def escapeCsv (v : Str) : Str := if ',' ∈ v then '"' :: v ++ ['"'] else v

/-- The header line of `TableWidget::generateCsvData` when
`useFields()` holds: each field name, always wrapped in double quotes,
comma-separated, then a newline. -/
def TableWidget.csvHeaderLine (s : TableWidget) : Str :=
  joinSep [','] ((List.range s.model.cols).map (fun c => '"' :: s.fieldNames.getD c [] ++ ['"'])) ++
    ['\n']

/-- One CSV record: the escaped cells of a row, comma-separated. -/
def csvRecord (cells : List Str) : Str := joinSep [','] (cells.map escapeCsv)

/-- The grid contents as a list of rows of cell texts, in row-major
order, exactly as the serializer loops traverse the model. -/
def TableWidget.gridCells (s : TableWidget) : List (List Str) :=
  (List.range s.model.rowCount).map fun r => (List.range s.model.cols).map fun c => s.model.data r c

/-- The data-row portion of `TableWidget::generateCsvData`: one
newline-terminated record per row. -/
def TableWidget.csvDataRows (s : TableWidget) : Str :=
  (s.gridCells.map fun cells => csvRecord cells ++ ['\n']).flatten

/-- `TableWidget::generateCsvData()`: the header line only when
`useFields()` holds, then the data rows. -/
def TableWidget.generateCsvData (s : TableWidget) : Str :=
  (if s.useFields then s.csvHeaderLine else []) ++ s.csvDataRows

/-- The JSON key chosen for column `c` in
`TableWidget::generateJsonData`: the field name when `useFields()`
holds, otherwise the model's header datum for the column. -/
def TableWidget.jsonKey (s : TableWidget) (c : Nat) : Str :=
  if s.useFields then s.fieldNames.getD c [] else s.model.headerData c

/-- `TableWidget::generateJsonData(nullptr)` (no value converter): the
sequence of row objects, each the sequence of key/value insertions
performed for its columns, in order. -/
def TableWidget.generateJsonRows (s : TableWidget) : List (List (Str × Str)) :=
  (List.range s.model.rowCount).map fun r =>
    (List.range s.model.cols).map fun c => (s.jsonKey c, s.model.data r c)

/-- `Qt::ItemIsSelectable`. -/
def ItemIsSelectable : Nat := 1

/-- `Qt::ItemIsEditable`. -/
def ItemIsEditable : Nat := 2

/-- `Qt::ItemIsDragEnabled`. -/
def ItemIsDragEnabled : Nat := 4

/-- `Qt::ItemIsDropEnabled`. -/
def ItemIsDropEnabled : Nat := 8

/-- `Qt::ItemIsEnabled`. -/
def ItemIsEnabled : Nat := 32

/-- The flags `QStandardItemModel::flags` returns for a valid index
whose item flags were never modified: the `QStandardItem` default
`Selectable | Editable | DragEnabled | DropEnabled | Enabled`. -/
def qtDefaultItemFlags : Nat :=
  ItemIsSelectable ||| ItemIsEditable ||| ItemIsDragEnabled ||| ItemIsDropEnabled ||| ItemIsEnabled

/-- `CustomTableModel::flags(index)`: an invalid index (`none`) yields
`Qt::NoItemFlags`; a valid index `(row, column)` is classified by its
column's membership in the editable and disabled column lists. -/
def CustomTableModel.flags (editableColumns disabledColumns : List Int)
    (index : Option (Int × Int)) : Nat :=
  match index with
  | none => 0
  | some (_, column) =>
    if column ∈ editableColumns then ItemIsSelectable ||| ItemIsEditable ||| ItemIsEnabled
    else if column ∈ disabledColumns then ItemIsSelectable ||| ItemIsEnabled
    else qtDefaultItemFlags

/-- Split a character sequence at every occurrence of `sep`, keeping
empty parts (the semantics of `QString::split` with a one-character
separator). -/
def splitChar (sep : Char) : Str → List Str
  | [] => [[]]
  | c :: cs =>
    if c = sep then [] :: splitChar sep cs
    else
      match splitChar sep cs with
      | [] => [[c]]
      | h :: t => (c :: h) :: t

/-- The paste branch of `TableWidget::contextMenuEvent`: an empty
clipboard changes nothing; otherwise the text is split on tabs and
appended as a row exactly when the number of parts equals the current
column count. -/
def TableWidget.pasteFromClipboard (s : TableWidget) (clipboardText : Str) : TableWidget :=
  if clipboardText = [] then s
  else
    let items := splitChar '\t' clipboardText
    if items.length = s.model.cols then s.appendRow items else s

/-- Strip one surrounding pair of double quotes from a CSV field, when
present. Part of the CSV reader the round-trip claim describes; not
code of the repository. -/
def unquoteField (f : Str) : Str :=
  if 2 ≤ f.length ∧ f.head? = some '"' ∧ f.getLast? = some '"' then (f.drop 1).dropLast else f

/-- Split a CSV record at the commas that lie outside double quotes;
the Boolean tracks whether the scan is currently inside quotes. Part
of the CSV reader the round-trip claim describes. -/
def splitQAux (inQ : Bool) : Str → List Str
  | [] => [[]]
  | c :: cs =>
    if c = ',' ∧ inQ = false then [] :: splitQAux inQ cs
    else
      match splitQAux (if c = '"' then !inQ else inQ) cs with
      | [] => [[c]]
      | h :: t => (c :: h) :: t

/-- Parse one CSV record: split on commas outside quotes, then strip
one surrounding pair of quotes from each field. -/
def parseRecord (rec : Str) : List Str := (splitQAux false rec).map unquoteField

/-- Parse the data-row portion of a CSV document: split the records on
newlines (each emitted record is newline-terminated, so the final
empty chunk is dropped) and parse each record. -/
def parseCsvRows (body : Str) : List (List Str) :=
  ((splitChar '\n' body).dropLast).map parseRecord



/-! ### List toolkit -/

theorem getD_eq_default {α : Type} (l : List α) (i : Nat) (d : α) (h : l.length ≤ i) :
    l.getD i d = d := by
  simp [List.getD_eq_getElem?_getD, List.getElem?_eq_none h]

theorem getD_append_lt {α : Type} (l1 l2 : List α) (i : Nat) (d : α) (h : i < l1.length) :
    (l1 ++ l2).getD i d = l1.getD i d := by
  simp [List.getD_eq_getElem?_getD, List.getElem?_append_left h]

theorem getD_append_ge {α : Type} (l1 l2 : List α) (i : Nat) (d : α) (h : l1.length ≤ i) :
    (l1 ++ l2).getD i d = l2.getD (i - l1.length) d := by
  simp [List.getD_eq_getElem?_getD, List.getElem?_append_right h]

theorem getD_replicate {α : Type} (n i : Nat) (x d : α) :
    (List.replicate n x).getD i d = if i < n then x else d := by
  by_cases h : i < n
  · simp [List.getD_eq_getElem?_getD, List.getElem?_replicate, h]
  · simp [List.getD_eq_getElem?_getD, List.getElem?_replicate, h]

theorem getD_set {α : Type} (l : List α) (i j : Nat) (x d : α) :
    (l.set j x).getD i d = if i = j ∧ j < l.length then x else l.getD i d := by
  by_cases hij : i = j
  · subst hij
    by_cases hl : i < l.length
    · simp [List.getD_eq_getElem?_getD, List.getElem?_set_self', hl,
        List.getElem?_eq_getElem hl]
    · simp [List.getD_eq_getElem?_getD, List.set_eq_of_length_le (Nat.le_of_not_lt hl), hl]
  · simp [List.getD_eq_getElem?_getD, List.getElem?_set_ne (fun h => hij h.symm), hij]

theorem getD_map_range {α : Type} (f : Nat → α) (n i : Nat) (d : α) :
    ((List.range n).map f).getD i d = if i < n then f i else d := by
  by_cases h : i < n
  · simp [List.getD_eq_getElem?_getD, List.getElem?_map, List.getElem?_range h, h]
  · have : n ≤ i := Nat.le_of_not_lt h
    simp [List.getD_eq_getElem?_getD, List.getElem?_map,
      List.getElem?_eq_none (by simpa using this : (List.range n).length ≤ i), h]

theorem padTo_length (n : Nat) (l : List (Option Str)) : (padTo n l).length = n := by
  simp [padTo]
  omega

theorem padTo_eq_append (n : Nat) (l : List (Option Str)) (h : l.length ≤ n) :
    padTo n l = l ++ List.replicate (n - l.length) none := by
  simp [padTo, List.take_of_length_le h]

theorem padTo_eq_self (n : Nat) (l : List (Option Str)) (h : l.length = n) : padTo n l = l := by
  subst h
  simp [padTo]

theorem padTo_getD (n : Nat) (l : List (Option Str)) (i : Nat) (h : l.length ≤ n) :
    (padTo n l).getD i none = l.getD i none := by
  rw [padTo_eq_append n l h]
  by_cases hi : i < l.length
  · exact getD_append_lt _ _ _ _ hi
  · rw [getD_append_ge _ _ _ _ (Nat.le_of_not_lt hi), getD_replicate,
      getD_eq_default _ _ _ (Nat.le_of_not_lt hi)]
    split <;> rfl

theorem getD_of_lt {α : Type} (l : List α) (i : Nat) (d : α) (h : i < l.length) :
    l.getD i d = l[i] := by
  simp [List.getD_eq_getElem?_getD, List.getElem?_eq_getElem h]

theorem getD_map {α β : Type} (f : α → β) (l : List α) (i : Nat) (d : β) (e : α)
    (h : i < l.length) : (l.map f).getD i d = f (l.getD i e) := by
  rw [getD_of_lt _ _ _ (by simpa using h), getD_of_lt _ _ _ h]
  simp

/-! ### Characterization of `Model.setItem` -/

theorem Model.setItem_cols (m : Model) (r c : Nat) (v : Str) :
    (m.setItem r c v).cols = max m.cols (c + 1) := by
  simp [Model.setItem, Model.setRowCount, Model.setColumnCount]

theorem Model.setItem_rowCount (m : Model) (r c : Nat) (v : Str) :
    (m.setItem r c v).rowCount = max m.rowCount (r + 1) := by
  simp [Model.setItem, Model.setRowCount, Model.setColumnCount, Model.rowCount]

theorem Model.setItem_hlabels (m : Model) (r c : Nat) (v : Str) :
    (m.setItem r c v).hlabels = padTo (max m.cols (c + 1)) m.hlabels := by
  simp [Model.setItem, Model.setRowCount, Model.setColumnCount]

theorem Model.setItem_vlabels (m : Model) (r c : Nat) (v : Str) :
    (m.setItem r c v).vlabels = padTo (max m.rowCount (r + 1)) m.vlabels := by
  simp [Model.setItem, Model.setRowCount, Model.setColumnCount, Model.rowCount]

theorem Model.setItem_items (m : Model) (r c : Nat) (v : Str) (hr : r < m.rowCount) :
    (m.setItem r c v).items =
      (m.items.map (padTo (max m.cols (c + 1)))).set r
        (((m.items.map (padTo (max m.cols (c + 1)))).getD r []).set c (some v)) := by
  have hmax : max m.items.length (r + 1) = m.items.length := by
    have : r < m.items.length := hr
    omega
  simp only [Model.setItem, Model.setColumnCount, Model.setRowCount]
  rw [hmax,
    List.take_of_length_le (le_of_eq (by simp) :
      (List.map (padTo (max m.cols (c + 1))) m.items).length ≤ m.items.length)]
  simp

theorem Model.setItem_data (m : Model) (r c : Nat) (v : Str)
    (hrect : ∀ row ∈ m.items, row.length = m.cols) (hr : r < m.rowCount) (i j : Nat) :
    (m.setItem r c v).data i j = if i = r ∧ j = c then v else m.data i j := by
  have hr' : r < m.items.length := hr
  have hκ : m.cols ≤ max m.cols (c + 1) := Nat.le_max_left _ _
  have hrow : ∀ k, k < m.items.length → (m.items.getD k []).length = m.cols := by
    intro k hk
    rw [getD_of_lt _ _ _ hk]
    exact hrect _ (List.getElem_mem hk)
  rw [Model.data, Model.setItem_items m r c v hr, getD_set]
  by_cases hi : i = r
  · rw [if_pos ⟨hi, by simpa using hr'⟩]
    rw [getD_map _ _ _ _ [] hr', getD_set]
    by_cases hj : j = c
    · rw [if_pos ⟨hj, by rw [padTo_length]; omega⟩]
      simp [hi, hj]
    · rw [if_neg (by tauto)]
      rw [padTo_getD _ _ _ (by rw [hrow r hr']; exact hκ)]
      rw [if_neg (by tauto), Model.data, hi]
  · rw [if_neg (by tauto), if_neg (by tauto), Model.data]
    by_cases hil : i < m.items.length
    · rw [getD_map _ _ _ _ [] hil, padTo_getD _ _ _ (by rw [hrow i hil]; exact hκ)]
    · rw [getD_eq_default (m.items.map (padTo (max m.cols (c + 1)))) i []
          (by simpa using Nat.le_of_not_lt hil),
        getD_eq_default m.items i [] (Nat.le_of_not_lt hil)]

theorem Model.setItem_WF (m : Model) (r c : Nat) (v : Str) (hwf : m.WF) (hr : r < m.rowCount) :
    (m.setItem r c v).WF := by
  obtain ⟨hrect, hh, hv⟩ := hwf
  have hr' : r < m.items.length := hr
  refine ⟨?_, ?_, ?_⟩
  · intro row hrowmem
    rw [Model.setItem_items m r c v hr] at hrowmem
    rw [Model.setItem_cols]
    rcases List.mem_or_eq_of_mem_set hrowmem with hmem | heq
    · obtain ⟨orig, _, rfl⟩ := List.mem_map.mp hmem
      exact padTo_length _ _
    · subst heq
      rw [List.length_set, getD_map _ _ _ _ [] hr', padTo_length]
  · rw [Model.setItem_hlabels, Model.setItem_cols, padTo_length]
  · rw [Model.setItem_vlabels, padTo_length,
      show (m.setItem r c v).items.length = (m.setItem r c v).rowCount from rfl,
      Model.setItem_rowCount]

theorem Model.setItem_headerData (m : Model) (r c : Nat) (v : Str)
    (hh : m.hlabels.length = m.cols) (j : Nat) :
    (m.setItem r c v).headerData j = m.headerData j := by
  rw [Model.headerData, Model.headerData, Model.setItem_hlabels,
    padTo_getD _ _ _ (by rw [hh]; exact Nat.le_max_left _ _)]

theorem Model.setItem_vlabels_of_lt (m : Model) (r c : Nat) (v : Str)
    (hv : m.vlabels.length = m.rowCount) (hr : r < m.rowCount) :
    (m.setItem r c v).vlabels = m.vlabels := by
  rw [Model.setItem_vlabels, Nat.max_eq_left (by omega), padTo_eq_self _ _ hv]

theorem set_getD_self {α : Type} (l : List α) (i : Nat) (d : α) (h : i < l.length) :
    l.set i (l.getD i d) = l := by
  induction l generalizing i with
  | nil => simp at h
  | cons x t ih =>
    cases i with
    | zero => simp
    | succ i => simpa using ih i (by simpa using h)

theorem set_append_right_len {α : Type} (A B : List α) (x : α) :
    (A ++ B).set A.length x = A ++ B.set 0 x := by
  induction A with
  | nil => simp
  | cons a t ih => simp [ih]

theorem map_padTo_self (L : List (List (Option Str))) (n : Nat)
    (h : ∀ row ∈ L, row.length = n) : L.map (padTo n) = L := by
  induction L with
  | nil => rfl
  | cons x t ih =>
    rw [List.map_cons, padTo_eq_self _ _ (h x (List.mem_cons_self x t)),
      ih fun row hm => h row (List.mem_cons_of_mem _ hm)]

/-- A model is determined by its four fields. -/
theorem model_fields_ext (a b : Model) (hi : a.items = b.items) (hc : a.cols = b.cols)
    (hh : a.hlabels = b.hlabels) (hv : a.vlabels = b.vlabels) : a = b := by
  cases a
  cases b
  simp_all

theorem Model.setRowCount_grow_eq (m : Model) (n : Nat) (hv : m.vlabels.length = m.rowCount)
    (hn : m.rowCount ≤ n) :
    m.setRowCount n =
      { m with
        items := m.items ++ List.replicate (n - m.rowCount) (blankRow m.cols),
        vlabels := m.vlabels ++ List.replicate (n - m.rowCount) none } := by
  refine model_fields_ext _ _ ?_ rfl rfl ?_
  · simp [Model.setRowCount, Model.rowCount,
      List.take_of_length_le (by exact hn : m.items.length ≤ n)]
  · simp only [Model.setRowCount]
    rw [padTo_eq_append _ _ (by rw [hv]; exact hn), hv]

theorem Model.setRowCount_WF (m : Model) (n : Nat) (hwf : m.WF) : (m.setRowCount n).WF := by
  obtain ⟨hrect, hh, hv⟩ := hwf
  refine ⟨?_, hh, ?_⟩
  · intro row hrow
    have hcols : (m.setRowCount n).cols = m.cols := rfl
    rw [hcols]
    simp only [Model.setRowCount] at hrow
    rcases List.mem_append.mp hrow with hmem | hmem
    · exact hrect _ (List.mem_of_mem_take hmem)
    · rw [List.eq_of_mem_replicate hmem]
      simp [blankRow]
  · simp only [Model.setRowCount, padTo_length]
    simp
    omega

/-- The row of items `TableWidget::setRowData` produces: one item per
column, holding `rowData.value(c)`. -/
def fullRow (cols : Nat) (d : List Str) : List (Option Str) :=
  (List.range cols).map fun c => some (d.getD c [])

theorem fullRow_length (cols : Nat) (d : List Str) : (fullRow cols d).length = cols := by
  simp [fullRow]

theorem fullRow_getD (cols : Nat) (d : List Str) (j : Nat) :
    (fullRow cols d).getD j none = if j < cols then some (d.getD j []) else none :=
  getD_map_range _ _ _ _

theorem Model.setRowFrom_eq (m : Model) (r : Nat) (d : List Str) (n : Nat)
    (hwf : m.WF) (hr : r < m.rowCount) (hn : n ≤ m.cols) :
    m.setRowFrom r d n =
      { m with
        items := m.items.set r
          (((List.range n).map fun c => some (d.getD c [])) ++ (m.items.getD r []).drop n) } := by
  obtain ⟨hrect, hh, hv⟩ := hwf
  have hr' : r < m.items.length := hr
  have hrowlen : (m.items.getD r []).length = m.cols := by
    rw [getD_of_lt _ _ _ hr']
    exact hrect _ (List.getElem_mem hr')
  induction n with
  | zero =>
    simp only [Model.setRowFrom, List.range_zero, List.map_nil, List.nil_append, List.drop_zero]
    rw [set_getD_self _ _ _ hr']
  | succ n ih =>
    have hn' : n ≤ m.cols := by omega
    rw [Model.setRowFrom, ih hn']
    set P := ((List.range n).map fun c => some (d.getD c [])) ++ (m.items.getD r []).drop n
      with hP
    have hPlen : P.length = m.cols := by
      rw [hP, List.length_append, List.length_map, List.length_range, List.length_drop, hrowlen]
      omega
    have hrect' : ∀ row ∈ m.items.set r P, row.length = m.cols := by
      intro row hrow
      rcases List.mem_or_eq_of_mem_set hrow with hmem | heq
      · exact hrect _ hmem
      · rw [heq, hPlen]
    have hr2 : r < (m.items.set r P).length := by simpa using hr'
    have hv2 : m.vlabels.length = (m.items.set r P).length := by simp [hv]
    have hmaxc : max m.cols (n + 1) = m.cols := by omega
    refine model_fields_ext _ _ ?_ ?_ ?_ ?_
    · rw [Model.setItem_items { m with items := m.items.set r P } r n (d.getD n []) hr2, hmaxc,
        map_padTo_self _ _ hrect', getD_of_lt _ _ _ hr2, List.getElem_set_self hr2,
        List.set_set]
      have hdropcons : (m.items.getD r []).drop n =
          (m.items.getD r [])[n] :: (m.items.getD r []).drop (n + 1) :=
        List.drop_eq_getElem_cons (by omega)
      rw [hP, List.range_succ, List.map_append, List.map_singleton, List.append_assoc,
        List.singleton_append, hdropcons]
      rw [show (((List.range n).map fun c => some (d.getD c [])) ++
          (m.items.getD r [])[n] :: (m.items.getD r []).drop (n + 1)).set n (some (d.getD n [])) =
          ((List.range n).map fun c => some (d.getD c [])) ++
          (((m.items.getD r [])[n] :: (m.items.getD r []).drop (n + 1)).set 0
            (some (d.getD n []))) from by
        have hsa := set_append_right_len ((List.range n).map fun c => some (d.getD c []))
          ((m.items.getD r [])[n] :: (m.items.getD r []).drop (n + 1)) (some (d.getD n []))
        simp only [List.length_map, List.length_range] at hsa
        exact hsa]
      rfl
    · rw [Model.setItem_cols, hmaxc]
    · rw [Model.setItem_hlabels, hmaxc, padTo_eq_self _ _ hh]
    · rw [Model.setItem_vlabels_of_lt { m with items := m.items.set r P } r n (d.getD n [])
        hv2 hr2]

theorem Model.setRowData_eq (m : Model) (r : Nat) (d : List Str)
    (hwf : m.WF) (hr : r < m.rowCount) :
    m.setRowData r d = { m with items := m.items.set r (fullRow m.cols d) } := by
  rw [Model.setRowData, Model.setRowFrom_eq m r d m.cols hwf hr (Nat.le_refl _)]
  have hrowlen : (m.items.getD r []).length = m.cols := by
    rw [getD_of_lt _ _ _ hr]
    exact hwf.1 _ (List.getElem_mem hr)
  rw [show (m.items.getD r []).drop m.cols = [] from by
    rw [← hrowlen]; exact List.drop_length _]
  rw [List.append_nil]
  rfl

theorem list_ext_getD {α : Type} (A B : List α) (d : α) (hlen : A.length = B.length)
    (h : ∀ i, A.getD i d = B.getD i d) : A = B := by
  apply List.ext_getElem hlen
  intro i h1 h2
  have := h i
  rwa [getD_of_lt _ _ _ h1, getD_of_lt _ _ _ h2] at this

theorem Model.setRowData_WF (m : Model) (r : Nat) (d : List Str)
    (hwf : m.WF) (hr : r < m.rowCount) : (m.setRowData r d).WF := by
  rw [Model.setRowData_eq _ _ _ hwf hr]
  obtain ⟨hrect, hh, hv⟩ := hwf
  refine ⟨?_, hh, ?_⟩
  · intro row hrow
    dsimp only at hrow
    rcases List.mem_or_eq_of_mem_set hrow with hmem | heq
    · exact hrect _ hmem
    · rw [heq]
      exact fullRow_length _ _
  · dsimp only
    simp [hv]

theorem Model.appendRowsLoop_obs (l : List (List Str)) (m : Model) (base : Nat)
    (hwf : m.WF) (hlen : base + l.length ≤ m.rowCount) :
    (m.appendRowsLoop base l).cols = m.cols ∧
    (m.appendRowsLoop base l).hlabels = m.hlabels ∧
    (m.appendRowsLoop base l).vlabels = m.vlabels ∧
    (m.appendRowsLoop base l).WF ∧
    (m.appendRowsLoop base l).items.length = m.items.length ∧
    ∀ i, (m.appendRowsLoop base l).items.getD i [] =
      if base ≤ i ∧ i < base + l.length then fullRow m.cols (l.getD (i - base) [])
      else m.items.getD i [] := by
  induction l generalizing m base with
  | nil =>
    refine ⟨rfl, rfl, rfl, hwf, rfl, ?_⟩
    intro i
    rw [if_neg (by simp only [List.length_nil]; omega)]
    rfl
  | cons d rest ih =>
    have hr : base < m.rowCount := by
      simp only [List.length_cons] at hlen
      omega
    have heq := Model.setRowData_eq m base d hwf hr
    have hwf1 : (m.setRowData base d).WF := Model.setRowData_WF m base d hwf hr
    have hlen1 : (base + 1) + rest.length ≤ (m.setRowData base d).rowCount := by
      rw [heq]
      simp only [Model.rowCount, List.length_cons] at hlen ⊢
      simp only [List.length_set]
      omega
    obtain ⟨hc, hhl, hvl, hwf2, hil, hdata⟩ := ih (m.setRowData base d) (base + 1) hwf1 hlen1
    rw [Model.appendRowsLoop]
    refine ⟨?_, ?_, ?_, hwf2, ?_, ?_⟩
    · rw [hc, heq]
    · rw [hhl, heq]
    · rw [hvl, heq]
    · rw [hil, heq]
      simp
    · intro i
      rw [hdata i, heq]
      dsimp only
      by_cases h1 : base + 1 ≤ i ∧ i < base + 1 + rest.length
      · rw [if_pos h1, if_pos (by constructor <;> [omega; (simp only [List.length_cons]; omega)])]
        have hsub : i - base = (i - (base + 1)) + 1 := by omega
        rw [hsub, List.getD_cons_succ]
      · rw [if_neg h1, getD_set]
        by_cases h2 : i = base
        · rw [if_pos ⟨h2, by rw [h2] at *; exact hr⟩,
            if_pos (by constructor <;> [omega; (simp only [List.length_cons]; omega)])]
          rw [h2]
          simp
        · rw [if_neg (by tauto),
            if_neg (by intro hcon; simp only [List.length_cons] at hcon; omega)]

/-- A widget state is determined by its four fields. -/
theorem widget_fields_ext (a b : TableWidget) (hm : a.model = b.model)
    (hh : a.headers = b.headers) (hf : a.fieldNames = b.fieldNames)
    (hv : a.verticalHeaders = b.verticalHeaders) : a = b := by
  cases a
  cases b
  simp_all

theorem TableWidget.appendRows_eq (s : TableWidget) (l : List (List Str)) (hwf : s.model.WF) :
    s.appendRows l =
      { s with model :=
        { items := s.model.items ++ l.map (fullRow s.model.cols),
          cols := s.model.cols,
          hlabels := s.model.hlabels,
          vlabels := s.model.vlabels ++ List.replicate l.length none } } := by
  obtain ⟨hrect, hh, hv⟩ := hwf
  have hgrow := Model.setRowCount_grow_eq s.model (s.model.rowCount + l.length) hv (by omega)
  have hwf1 : (s.model.setRowCount (s.model.rowCount + l.length)).WF :=
    Model.setRowCount_WF _ _ ⟨hrect, hh, hv⟩
  have hlen1 : s.model.rowCount + l.length ≤
      (s.model.setRowCount (s.model.rowCount + l.length)).rowCount := by
    rw [hgrow]
    simp only [Model.rowCount, List.length_append, List.length_replicate]
    omega
  obtain ⟨hc, hhl, hvl, hwfL, hil, hdata⟩ :=
    Model.appendRowsLoop_obs l (s.model.setRowCount (s.model.rowCount + l.length))
      s.model.rowCount hwf1 hlen1
  refine widget_fields_ext _ _ ?_ rfl rfl rfl
  simp only [TableWidget.appendRows]
  refine model_fields_ext _ _ ?_ ?_ ?_ ?_
  · refine list_ext_getD _ _ ([] : List (Option Str)) ?_ ?_
    · rw [hil, hgrow]
      simp only [Model.rowCount, List.length_append, List.length_replicate, List.length_map]
      omega
    · intro i
      rw [hdata i, hgrow]
      dsimp only
      by_cases h1 : s.model.rowCount ≤ i ∧ i < s.model.rowCount + l.length
      · rw [if_pos h1, getD_append_ge _ _ _ _ (by exact h1.1 : s.model.items.length ≤ i),
          getD_map (fullRow s.model.cols) l _ _ [] (by simp [Model.rowCount] at h1 ⊢; omega)]
        rfl
      · rw [if_neg h1]
        by_cases h2 : i < s.model.rowCount
        · rw [getD_append_lt _ _ _ _ (by exact h2 : i < s.model.items.length),
            getD_append_lt _ _ _ _ (by exact h2 : i < s.model.items.length)]
        · rw [getD_eq_default _ _ _ (by
              simp only [List.length_append, List.length_replicate, Model.rowCount] at *
              omega),
            getD_eq_default _ _ _ (by
              simp only [List.length_append, List.length_map, Model.rowCount] at *
              omega)]
  · rw [hc, hgrow]
  · rw [hhl, hgrow]
  · rw [hvl, hgrow]
    dsimp only
    rw [show s.model.rowCount + l.length - s.model.rowCount = l.length from by omega]

theorem TableWidget.appendRow_eq_singleton (s : TableWidget) (d : List Str) :
    s.appendRow d = s.appendRows [d] := rfl

theorem TableWidget.appendRow_eq (s : TableWidget) (d : List Str) (hwf : s.model.WF) :
    s.appendRow d =
      { s with model :=
        { items := s.model.items ++ [fullRow s.model.cols d],
          cols := s.model.cols,
          hlabels := s.model.hlabels,
          vlabels := s.model.vlabels ++ [none] } } := by
  rw [TableWidget.appendRow_eq_singleton, TableWidget.appendRows_eq s [d] hwf]
  simp

theorem appendRows_result_WF (m : Model) (l : List (List Str)) (hwf : m.WF) :
    Model.WF
      { items := m.items ++ l.map (fullRow m.cols), cols := m.cols, hlabels := m.hlabels,
        vlabels := m.vlabels ++ List.replicate l.length none } := by
  obtain ⟨hrect, hh, hv⟩ := hwf
  refine ⟨?_, by simpa using hh, ?_⟩
  · intro row hrow
    dsimp only at hrow ⊢
    rcases List.mem_append.mp hrow with hmem | hmem
    · exact hrect _ hmem
    · obtain ⟨a, _, rfl⟩ := List.mem_map.mp hmem
      exact fullRow_length _ _
  · dsimp only [Model.WF]
    simp [hv]

theorem TableWidget.appendRows_nil (s : TableWidget) (hwf : s.model.WF) :
    s.appendRows [] = s := by
  rw [TableWidget.appendRows_eq s [] hwf]
  refine widget_fields_ext _ _ ?_ rfl rfl rfl
  exact model_fields_ext _ _ (by simp) rfl rfl (by simp)

theorem drop_replicate {α : Type} (i n : Nat) (a : α) :
    (List.replicate n a).drop i = List.replicate (n - i) a := by
  induction n generalizing i with
  | zero => simp
  | succ n ih =>
    cases i with
    | zero => simp
    | succ i => simp [List.replicate_succ, ih]

theorem padTo_replicate (κ c0 : Nat) (h : c0 ≤ κ) :
    padTo κ (List.replicate c0 (none : Option Str)) = List.replicate κ none := by
  rw [padTo_eq_append _ _ (by simpa using h), List.length_replicate, ← List.replicate_add,
    show c0 + (κ - c0) = κ from by omega]

theorem Model.setCellsFrom_obs (cells : List Str) (m : Model) (r c : Nat)
    (hwf : m.WF) (hr : r < m.rowCount) (hc : c ≤ m.cols) :
    (m.setCellsFrom r c cells).cols = max m.cols (c + cells.length) ∧
    (m.setCellsFrom r c cells).rowCount = m.rowCount ∧
    (m.setCellsFrom r c cells).WF ∧
    (∀ j, (m.setCellsFrom r c cells).headerData j = m.headerData j) ∧
    (m.setCellsFrom r c cells).vlabels = m.vlabels ∧
    ∀ i j, (m.setCellsFrom r c cells).data i j =
      if i = r ∧ c ≤ j ∧ j < c + cells.length then cells.getD (j - c) [] else m.data i j := by
  induction cells generalizing m c with
  | nil =>
    refine ⟨?_, rfl, hwf, fun j => rfl, rfl, ?_⟩
    · simp only [Model.setCellsFrom, List.length_nil, Nat.add_zero]
      omega
    · intro i j
      rw [if_neg (by simp only [List.length_nil]; omega)]
      rfl
  | cons v rest ih =>
    obtain ⟨hrect, hh, hv⟩ := hwf
    have hwf1 : (m.setItem r c v).WF := Model.setItem_WF m r c v ⟨hrect, hh, hv⟩ hr
    have hr1 : r < (m.setItem r c v).rowCount := by
      rw [Model.setItem_rowCount]
      omega
    have hc1 : c + 1 ≤ (m.setItem r c v).cols := by
      rw [Model.setItem_cols]
      omega
    obtain ⟨ic, irows, iwf, ihd, ivl, idata⟩ := ih (m.setItem r c v) (c + 1) hwf1 hr1 hc1
    rw [Model.setCellsFrom]
    refine ⟨?_, ?_, iwf, ?_, ?_, ?_⟩
    · rw [ic, Model.setItem_cols]
      simp only [List.length_cons]
      omega
    · rw [irows, Model.setItem_rowCount]
      omega
    · intro j
      rw [ihd j, Model.setItem_headerData m r c v hh j]
    · rw [ivl, Model.setItem_vlabels_of_lt m r c v hv hr]
    · intro i j
      rw [idata i j, Model.setItem_data m r c v hrect hr i j]
      by_cases h1 : i = r ∧ c + 1 ≤ j ∧ j < c + 1 + rest.length
      · rw [if_pos h1,
          if_pos (⟨h1.1, by omega, by simp only [List.length_cons]; omega⟩ :
            i = r ∧ c ≤ j ∧ j < c + (v :: rest).length)]
        have hsub : j - c = (j - (c + 1)) + 1 := by omega
        rw [hsub, List.getD_cons_succ]
      · rw [if_neg h1]
        by_cases h2 : i = r ∧ j = c
        · rw [if_pos h2,
            if_pos (⟨h2.1, by omega, by simp only [List.length_cons]; omega⟩ :
              i = r ∧ c ≤ j ∧ j < c + (v :: rest).length)]
          rw [h2.2]
          simp
        · rw [if_neg h2, if_neg (by
            intro hcon
            simp only [List.length_cons] at hcon
            obtain ⟨hir, hcj, hjlt⟩ := hcon
            rcases Nat.lt_or_ge j (c + 1) with hlt | hge
            · exact h2 ⟨hir, by omega⟩
            · exact h1 ⟨hir, hge, by omega⟩)]

theorem Model.setAllCells_obs (data : List (List Str)) (m : Model) (r : Nat)
    (hwf : m.WF) (hlen : r + data.length ≤ m.rowCount) :
    (m.setAllCells r data).cols = data.foldl (fun a row => max a row.length) m.cols ∧
    (m.setAllCells r data).rowCount = m.rowCount ∧
    (m.setAllCells r data).WF ∧
    (∀ j, (m.setAllCells r data).headerData j = m.headerData j) ∧
    (m.setAllCells r data).vlabels = m.vlabels ∧
    ∀ i j, (m.setAllCells r data).data i j =
      if r ≤ i ∧ i < r + data.length ∧ j < (data.getD (i - r) []).length
      then (data.getD (i - r) []).getD j [] else m.data i j := by
  induction data generalizing m r with
  | nil =>
    refine ⟨rfl, rfl, hwf, fun j => rfl, rfl, ?_⟩
    intro i j
    rw [if_neg (by simp only [List.length_nil]; omega)]
    rfl
  | cons row0 rest ih =>
    have hr : r < m.rowCount := by
      simp only [List.length_cons] at hlen
      omega
    obtain ⟨c0, r0, w0, hd0, vl0, dt0⟩ := Model.setCellsFrom_obs row0 m r 0 hwf hr (Nat.zero_le _)
    have hlen1 : (r + 1) + rest.length ≤ (m.setCellsFrom r 0 row0).rowCount := by
      rw [r0]
      simp only [List.length_cons] at hlen
      omega
    obtain ⟨ic, irows, iwf, ihd, ivl, idata⟩ := ih (m.setCellsFrom r 0 row0) (r + 1) w0 hlen1
    rw [Model.setAllCells]
    refine ⟨?_, ?_, iwf, ?_, ?_, ?_⟩
    · rw [ic, c0]
      simp only [List.foldl_cons, Nat.zero_add]
    · rw [irows, r0]
    · intro j
      rw [ihd j, hd0 j]
    · rw [ivl, vl0]
    · intro i j
      rw [idata i j, dt0 i j]
      by_cases h1 : r + 1 ≤ i ∧ i < r + 1 + rest.length ∧ j < (rest.getD (i - (r + 1)) []).length
      · have hgetD : (row0 :: rest).getD (i - r) [] = rest.getD (i - (r + 1)) [] := by
          rw [show i - r = (i - (r + 1)) + 1 from by omega, List.getD_cons_succ]
        rw [if_pos h1,
          if_pos (⟨by omega, by simp only [List.length_cons]; omega,
            by rw [hgetD]; exact h1.2.2⟩ :
            r ≤ i ∧ i < r + (row0 :: rest).length ∧ j < ((row0 :: rest).getD (i - r) []).length)]
        rw [hgetD]
      · rw [if_neg h1]
        by_cases h2 : i = r ∧ 0 ≤ j ∧ j < 0 + row0.length
        · have hgetD : (row0 :: rest).getD (i - r) [] = row0 := by
            rw [h2.1, Nat.sub_self, List.getD_cons_zero]
          rw [if_pos h2,
            if_pos (⟨by omega, by simp only [List.length_cons]; omega,
              by rw [hgetD]; omega⟩ :
              r ≤ i ∧ i < r + (row0 :: rest).length ∧ j < ((row0 :: rest).getD (i - r) []).length)]
          rw [hgetD]
          simp
        · rw [if_neg h2, if_neg (by
            intro hcon
            simp only [List.length_cons] at hcon
            obtain ⟨hri, hilt, hjlt⟩ := hcon
            rcases Nat.lt_or_ge i (r + 1) with hlt | hge
            · have hir : i = r := by omega
              rw [hir, Nat.sub_self, List.getD_cons_zero] at hjlt
              exact h2 ⟨hir, by omega, by omega⟩
            · rw [show i - r = (i - (r + 1)) + 1 from by omega, List.getD_cons_succ] at hjlt
              exact h1 ⟨hge, by omega, hjlt⟩)]

/-- The length of the first data row (`data[0].size()` in
`TableWidget::setData`), 0 for empty data. -/
def firstRowLen (data : List (List Str)) : Nat :=
  match data with
  | [] => 0
  | d0 :: _ => d0.length

/-- The column count `setData` reaches right after `resetHeaders`:
`setHorizontalHeaderLabels` grows the column count to the header count
when the headers outnumber the first data row. -/
def preCols (s : TableWidget) (data : List (List Str)) : Nat :=
  max (firstRowLen data) s.headers.length

/-- The row count `setData` reaches right after `resetHeaders`:
`setVerticalHeaderLabels` grows the row count to the vertical header
count when vertical headers are configured and outnumber the data. -/
def preRows (s : TableWidget) (data : List (List Str)) : Nat :=
  if s.verticalHeaders.isEmpty then data.length
  else max data.length s.verticalHeaders.length

/-- The model state `setData` reaches right before its item loop. -/
def preModel (s : TableWidget) (data : List (List Str)) : Model :=
  { items := List.replicate (preRows s data) (List.replicate (preCols s data) none),
    cols := preCols s data,
    hlabels := s.headers.map some ++
      List.replicate (preCols s data - s.headers.length) none,
    vlabels :=
      if s.verticalHeaders.isEmpty then List.replicate data.length none
      else s.verticalHeaders.map some ++
        List.replicate (preRows s data - s.verticalHeaders.length) none }

theorem setData_m4_eq (data : List (List Str)) :
    (match data with
      | [] => (Model.clear.setRowCount data.length).setColumnCount 0
      | d0 :: _ =>
        ((Model.clear.setRowCount data.length).setColumnCount 0).setColumnCount d0.length) =
      (⟨List.replicate data.length (List.replicate (firstRowLen data) none), firstRowLen data,
        List.replicate (firstRowLen data) none, List.replicate data.length none⟩ : Model) := by
  cases data with
  | nil =>
    simp [Model.clear, Model.setRowCount, Model.setColumnCount, padTo, blankRow, firstRowLen]
  | cons d0 rest =>
    simp [Model.clear, Model.setRowCount, Model.setColumnCount, padTo, blankRow, firstRowLen]

theorem chain_setHHL (n c0 : Nat) (headers : List Str) :
    (⟨List.replicate n (List.replicate c0 none), c0, List.replicate c0 none,
        List.replicate n none⟩ : Model).setHorizontalHeaderLabels headers =
      ⟨List.replicate n (List.replicate (max c0 headers.length) none), max c0 headers.length,
        headers.map some ++ List.replicate (max c0 headers.length - headers.length) none,
        List.replicate n none⟩ := by
  simp only [Model.setHorizontalHeaderLabels, Model.setColumnCount]
  refine model_fields_ext _ _ ?_ rfl ?_ rfl
  · dsimp only
    rw [List.map_replicate, padTo_replicate _ _ (Nat.le_max_left _ _)]
  · dsimp only
    rw [padTo_replicate _ _ (Nat.le_max_left _ _), drop_replicate]

theorem chain_setVHL (n C : Nat) (hl : List (Option Str)) (vh : List Str) :
    (⟨List.replicate n (List.replicate C none), C, hl, List.replicate n none⟩ :
        Model).setVerticalHeaderLabels vh =
      ⟨List.replicate (max n vh.length) (List.replicate C none), C, hl,
        vh.map some ++ List.replicate (max n vh.length - vh.length) none⟩ := by
  simp only [Model.setVerticalHeaderLabels, Model.setRowCount, List.length_replicate]
  refine model_fields_ext _ _ ?_ rfl rfl ?_
  · dsimp only
    rw [List.take_of_length_le (by simp : (List.replicate n (List.replicate C none)).length ≤
        max n vh.length)]
    rw [show blankRow C = List.replicate C none from rfl,
      ← List.replicate_add, show n + (max n vh.length - n) = max n vh.length from by omega]
  · dsimp only
    rw [padTo_replicate _ _ (Nat.le_max_left _ _), drop_replicate]

theorem resetHeaders_pre (s : TableWidget) (n c0 : Nat) :
    (TableWidget.resetHeaders { s with model :=
      ⟨List.replicate n (List.replicate c0 none), c0, List.replicate c0 none,
        List.replicate n none⟩ }).model =
      ⟨List.replicate (if s.verticalHeaders.isEmpty then n else max n s.verticalHeaders.length)
          (List.replicate (max c0 s.headers.length) none),
        max c0 s.headers.length,
        s.headers.map some ++
          List.replicate (max c0 s.headers.length - s.headers.length) none,
        if s.verticalHeaders.isEmpty then List.replicate n none
        else s.verticalHeaders.map some ++
          List.replicate
            ((if s.verticalHeaders.isEmpty then n else max n s.verticalHeaders.length)
              - s.verticalHeaders.length) none⟩ := by
  by_cases hvh : s.verticalHeaders.isEmpty
  · simp only [TableWidget.resetHeaders, hvh, if_true]
    rw [chain_setHHL]
  · simp only [TableWidget.resetHeaders, hvh, if_false]
    rw [chain_setHHL, chain_setVHL]
    simp

theorem TableWidget.setData_eq (s : TableWidget) (data : List (List Str)) :
    s.setData data = { s with model := (preModel s data).setAllCells 0 data } := by
  refine widget_fields_ext _ _ ?_ rfl rfl rfl
  simp only [TableWidget.setData]
  rw [setData_m4_eq data]
  rw [show TableWidget.resetHeaders { s with model :=
      ⟨List.replicate data.length (List.replicate (firstRowLen data) none), firstRowLen data,
        List.replicate (firstRowLen data) none, List.replicate data.length none⟩ } =
    { s with model := preModel s data } from ?_]
  refine widget_fields_ext _ _ ?_ rfl rfl rfl
  rw [resetHeaders_pre s data.length (firstRowLen data)]
  rfl

theorem preModel_WF (s : TableWidget) (data : List (List Str)) : (preModel s data).WF := by
  refine ⟨?_, ?_, ?_⟩
  · intro row hrow
    rw [List.eq_of_mem_replicate hrow]
    simp [preModel]
  · simp only [preModel, List.length_append, List.length_map, List.length_replicate, preCols]
    omega
  · by_cases hvh : s.verticalHeaders.isEmpty
    · simp [preModel, preRows, hvh]
    · simp [preModel, preRows, hvh]

theorem foldl_maxlen_init (l : List (List Str)) (a b : Nat) :
    l.foldl (fun x row => max x row.length) (max a b) =
      max a (l.foldl (fun x row => max x row.length) b) := by
  induction l generalizing b with
  | nil => rfl
  | cons r t ih =>
    simp only [List.foldl_cons]
    rw [Nat.max_assoc, ih]

theorem le_foldl_maxlen (l : List (List Str)) (b : Nat) :
    b ≤ l.foldl (fun x row => max x row.length) b := by
  induction l generalizing b with
  | nil => exact Nat.le_refl _
  | cons r t ih => exact Nat.le_trans (Nat.le_max_left _ _) (ih _)

theorem firstRowLen_le_foldl (data : List (List Str)) :
    firstRowLen data ≤ data.foldl (fun x row => max x row.length) 0 := by
  cases data with
  | nil => simp [firstRowLen]
  | cons d t =>
    simp only [firstRowLen, List.foldl_cons, Nat.zero_max]
    exact le_foldl_maxlen t d.length

theorem getD_eraseIdx {α : Type} (l : List α) (k i : Nat) (d : α) :
    (l.eraseIdx k).getD i d = if i < k then l.getD i d else l.getD (i + 1) d := by
  induction l generalizing k i with
  | nil =>
    simp only [List.eraseIdx, List.getD_nil]
    split <;> rfl
  | cons x t ih =>
    cases k with
    | zero => simp [List.eraseIdx]
    | succ k =>
      cases i with
      | zero => simp [List.eraseIdx]
      | succ i =>
        simp only [List.eraseIdx, List.getD_cons_succ, ih, Nat.succ_lt_succ_iff]

/-! ### CSV parsing toolkit -/

/-- Prepend `xs` to the first chunk of a split result. -/
def consHead (xs : Str) : List Str → List Str
  | [] => [xs]
  | h :: t => (xs ++ h) :: t

theorem splitChar_ne_nil (sep : Char) (l : Str) : splitChar sep l ≠ [] := by
  cases l with
  | nil => simp [splitChar]
  | cons c cs =>
    simp only [splitChar]
    split
    · simp
    · split <;> simp

theorem splitQAux_ne_nil (inQ : Bool) (l : Str) : splitQAux inQ l ≠ [] := by
  cases l with
  | nil => simp [splitQAux]
  | cons c cs =>
    simp only [splitQAux]
    split
    · simp
    · split <;> simp

theorem consHead_nil_left (l : List Str) (h : l ≠ []) : consHead [] l = l := by
  cases l with
  | nil => exact absurd rfl h
  | cons x t => simp [consHead]

theorem splitChar_append_sep (sep : Char) (xs ys : Str) (h : sep ∉ xs) :
    splitChar sep (xs ++ sep :: ys) = xs :: splitChar sep ys := by
  induction xs with
  | nil => simp [splitChar]
  | cons c cs ih =>
    have hc : ¬(c = sep) := fun hcc => h (hcc ▸ List.mem_cons_self c cs)
    have hcs : sep ∉ cs := fun hm => h (List.mem_cons_of_mem _ hm)
    rw [List.cons_append, splitChar, if_neg hc, ih hcs]

theorem nl_not_mem_csvRecord (cells : List Str) (h : ∀ v ∈ cells, ('\n' : Char) ∉ v) :
    ('\n' : Char) ∉ csvRecord cells := by
  induction cells with
  | nil => simp [csvRecord, joinSep]
  | cons x t ih =>
    have hx : ('\n' : Char) ∉ escapeCsv x := by
      have hxv := h x (List.mem_cons_self x t)
      rw [escapeCsv]
      split
      · intro hmem
        rcases List.mem_cons.mp hmem with hq | hmem2
        · exact absurd hq (by decide)
        · rcases List.mem_append.mp hmem2 with hv | hq
          · exact hxv hv
          · simp at hq
      · exact hxv
    cases t with
    | nil =>
      simpa [csvRecord, joinSep] using hx
    | cons y t2 =>
      have ht : ('\n' : Char) ∉ csvRecord (y :: t2) :=
        ih fun v hv => h v (List.mem_cons_of_mem _ hv)
      intro hmem
      rw [show csvRecord (x :: y :: t2) = escapeCsv x ++ [','] ++ csvRecord (y :: t2) from rfl]
        at hmem
      rcases List.mem_append.mp hmem with hmem2 | hrest
      · rcases List.mem_append.mp hmem2 with hv | hcomma
        · exact hx hv
        · simp at hcomma
      · exact ht hrest

theorem splitChar_nl_body (records : List Str) (h : ∀ r ∈ records, ('\n' : Char) ∉ r) :
    splitChar '\n' ((records.map (fun r => r ++ ['\n'])).flatten) = records ++ [[]] := by
  induction records with
  | nil => rfl
  | cons r t ih =>
    simp only [List.map_cons, List.flatten_cons]
    rw [List.append_assoc, show (['\n'] : Str) ++ (t.map (fun r => r ++ ['\n'])).flatten =
        '\n' :: (t.map (fun r => r ++ ['\n'])).flatten from rfl]
    rw [splitChar_append_sep _ _ _ (h r (List.mem_cons_self r t)),
      ih fun x hx => h x (List.mem_cons_of_mem _ hx)]
    rfl

theorem splitQAux_cons (inQ : Bool) (c : Char) (cs : Str) :
    splitQAux inQ (c :: cs) =
      if c = ',' ∧ inQ = false then [] :: splitQAux inQ cs
      else
        match splitQAux (if c = '"' then !inQ else inQ) cs with
        | [] => [[c]]
        | h :: t => (c :: h) :: t := rfl

theorem splitQAux_plain (xs ys : Str) (hq : ('"' : Char) ∉ xs) (hcomma : (',' : Char) ∉ xs) :
    splitQAux false (xs ++ ys) = consHead xs (splitQAux false ys) := by
  induction xs with
  | nil =>
    rw [List.nil_append, consHead_nil_left _ (splitQAux_ne_nil _ _)]
  | cons c cs ih =>
    have hc1 : ¬(c = '"') := fun hcc => hq (hcc ▸ List.mem_cons_self c cs)
    have hc2 : ¬(c = ',') := fun hcc => hcomma (hcc ▸ List.mem_cons_self c cs)
    have hq' : ('"' : Char) ∉ cs := fun hm => hq (List.mem_cons_of_mem _ hm)
    have hcomma' : (',' : Char) ∉ cs := fun hm => hcomma (List.mem_cons_of_mem _ hm)
    rw [List.cons_append, splitQAux_cons, if_neg (by simp [hc2]), if_neg hc1,
      ih hq' hcomma']
    cases hsq : splitQAux false ys with
    | nil => exact absurd hsq (splitQAux_ne_nil _ _)
    | cons h t =>
      cases cs with
      | nil => simp [consHead]
      | cons a b => simp [consHead]

theorem splitQAux_inq (xs ys : Str) (hq : ('"' : Char) ∉ xs) :
    splitQAux true (xs ++ ys) = consHead xs (splitQAux true ys) := by
  induction xs with
  | nil =>
    rw [List.nil_append, consHead_nil_left _ (splitQAux_ne_nil _ _)]
  | cons c cs ih =>
    have hc1 : ¬(c = '"') := fun hcc => hq (hcc ▸ List.mem_cons_self c cs)
    have hq' : ('"' : Char) ∉ cs := fun hm => hq (List.mem_cons_of_mem _ hm)
    rw [List.cons_append, splitQAux_cons, if_neg (by simp), if_neg hc1, ih hq']
    cases hsq : splitQAux true ys with
    | nil => exact absurd hsq (splitQAux_ne_nil _ _)
    | cons h t =>
      cases cs with
      | nil => simp [consHead]
      | cons a b => simp [consHead]

theorem splitQAux_quoted (xs ys : Str) (hq : ('"' : Char) ∉ xs) :
    splitQAux false ('"' :: (xs ++ '"' :: ys)) =
      consHead (('"' :: xs) ++ ['"']) (splitQAux false ys) := by
  rw [splitQAux_cons, if_neg (by simp), if_pos rfl, Bool.not_false]
  rw [splitQAux_inq xs ('"' :: ys) hq]
  rw [show splitQAux true ('"' :: ys) = consHead ['"'] (splitQAux false ys) from by
    rw [splitQAux_cons, if_neg (by simp), if_pos rfl, Bool.not_true]
    cases hsq : splitQAux false ys with
    | nil => exact absurd hsq (splitQAux_ne_nil _ _)
    | cons h t => simp [consHead]]
  cases hsq : splitQAux false ys with
  | nil => exact absurd hsq (splitQAux_ne_nil _ _)
  | cons h t => simp [consHead]

theorem splitQAux_escape (v ys : Str) (hq : ('"' : Char) ∉ v) :
    splitQAux false (escapeCsv v ++ ys) = consHead (escapeCsv v) (splitQAux false ys) := by
  by_cases hc : (',' : Char) ∈ v
  · rw [escapeCsv, if_pos hc]
    rw [show ('"' :: v ++ ['"']) ++ ys = '"' :: (v ++ '"' :: ys) from by simp]
    exact splitQAux_quoted v ys hq
  · rw [escapeCsv, if_neg hc]
    exact splitQAux_plain v ys hq hc

theorem splitQAux_record (cells : List Str) (hne : cells ≠ [])
    (hq : ∀ v ∈ cells, ('"' : Char) ∉ v) :
    splitQAux false (csvRecord cells) = cells.map escapeCsv := by
  induction cells with
  | nil => exact absurd rfl hne
  | cons x t ih =>
    cases t with
    | nil =>
      have h1 : csvRecord [x] = escapeCsv x ++ [] := by simp [csvRecord, joinSep]
      rw [h1, splitQAux_escape x [] (hq x (List.mem_cons_self x [])),
        show splitQAux false [] = [[]] from rfl]
      simp [consHead]
    | cons y t2 =>
      have h1 : csvRecord (x :: y :: t2) = escapeCsv x ++ (',' :: csvRecord (y :: t2)) := by
        rw [show csvRecord (x :: y :: t2) = escapeCsv x ++ [','] ++ csvRecord (y :: t2) from rfl]
        simp
      rw [h1, splitQAux_escape x _ (hq x (List.mem_cons_self x (y :: t2))),
        show splitQAux false (',' :: csvRecord (y :: t2)) =
          [] :: splitQAux false (csvRecord (y :: t2)) from by
          rw [splitQAux_cons, if_pos (by simp)],
        ih (by simp) fun v hv => hq v (List.mem_cons_of_mem _ hv)]
      simp [consHead]

theorem unquoteField_escape (v : Str) (hq : ('"' : Char) ∉ v) :
    unquoteField (escapeCsv v) = v := by
  by_cases hc : (',' : Char) ∈ v
  · rw [escapeCsv, if_pos hc, unquoteField, if_pos ?_]
    · rw [show ('"' :: v ++ ['"']).drop 1 = v ++ ['"'] from rfl, List.dropLast_concat]
    · refine ⟨by simp, by simp, ?_⟩
      rw [show ('"' : Char) :: v ++ ['"'] = ('"' :: v) ++ ['"'] from rfl, List.getLast?_concat]
  · rw [escapeCsv, if_neg hc, unquoteField, if_neg ?_]
    rintro ⟨hlen, hhead, hlast⟩
    cases v with
    | nil => simp at hlen
    | cons a t =>
      simp only [List.head?_cons, Option.some.injEq] at hhead
      exact hq (hhead ▸ List.mem_cons_self a t)

theorem map_unquote_escape (cells : List Str) (hq : ∀ v ∈ cells, ('"' : Char) ∉ v) :
    cells.map (unquoteField ∘ escapeCsv) = cells := by
  induction cells with
  | nil => rfl
  | cons x t ih =>
    rw [List.map_cons, ih fun v hv => hq v (List.mem_cons_of_mem _ hv),
      show (unquoteField ∘ escapeCsv) x = x from
        unquoteField_escape x (hq x (List.mem_cons_self x t))]

theorem parseRecord_csvRecord (cells : List Str) (hne : cells ≠ [])
    (hq : ∀ v ∈ cells, ('"' : Char) ∉ v) :
    parseRecord (csvRecord cells) = cells := by
  rw [parseRecord, splitQAux_record cells hne hq, List.map_map, map_unquote_escape cells hq]

theorem map_parse_csvRecord (rows : List (List Str)) (hne : ∀ r ∈ rows, r ≠ [])
    (hq : ∀ r ∈ rows, ∀ v ∈ r, ('"' : Char) ∉ v) :
    rows.map (parseRecord ∘ csvRecord) = rows := by
  induction rows with
  | nil => rfl
  | cons r t ih =>
    rw [List.map_cons,
      show (parseRecord ∘ csvRecord) r = r from
        parseRecord_csvRecord r (hne r (List.mem_cons_self r t))
          (hq r (List.mem_cons_self r t)),
      ih (fun x hx => hne x (List.mem_cons_of_mem _ hx))
        (fun x hx => hq x (List.mem_cons_of_mem _ hx))]

theorem parseCsvRows_flatten (rows : List (List Str)) (hne : ∀ r ∈ rows, r ≠ [])
    (hclean : ∀ r ∈ rows, ∀ v ∈ r, ('"' : Char) ∉ v ∧ ('\n' : Char) ∉ v) :
    parseCsvRows ((rows.map (fun cells => csvRecord cells ++ ['\n'])).flatten) = rows := by
  have hmapmap : rows.map (fun cells => csvRecord cells ++ ['\n']) =
      (rows.map csvRecord).map (fun r => r ++ ['\n']) := by
    rw [List.map_map]
    rfl
  rw [parseCsvRows, hmapmap,
    splitChar_nl_body (rows.map csvRecord) (by
      intro rec hrec
      obtain ⟨r, hr, rfl⟩ := List.mem_map.mp hrec
      exact nl_not_mem_csvRecord r fun v hv => (hclean r hr v hv).2),
    List.dropLast_concat, List.map_map,
    map_parse_csvRecord rows hne fun r hr v hv => (hclean r hr v hv).1]

/-! ### The claims -/

/-- Claim C1: `generateJsonData` with no value converter produces one
JSON object per row; the key for column `c` in every row object is
`fieldNames[c]` exactly when the field-name sequence has the same
length as the header sequence and as the current column count, and
otherwise the column's header label; row order, the one-object-per-row
shape and the cell values are the same in both cases. -/
theorem claim_C1_json_keys (s : TableWidget) :
    s.generateJsonRows.length = s.rowCount ∧
    ∀ r c, r < s.rowCount → c < s.columnCount →
      (s.generateJsonRows.getD r []).getD c ([], []) =
        ((if s.headers.length = s.fieldNames.length ∧ s.fieldNames.length = s.columnCount
          then s.fieldNames.getD c []
          else s.model.headerData c), s.cellData r c) := by
  constructor
  · simp [TableWidget.generateJsonRows, TableWidget.rowCount]
  · intro r c hr hc
    simp only [TableWidget.columnCount] at hc ⊢
    rw [TableWidget.generateJsonRows, getD_map_range,
      if_pos (by exact hr : r < s.model.rowCount), getD_map_range,
      if_pos (by exact hc : c < s.model.cols)]
    by_cases h : s.headers.length = s.fieldNames.length ∧ s.fieldNames.length = s.model.cols
    · simp [TableWidget.jsonKey, TableWidget.useFields, TableWidget.cellData, h]
    · simp [TableWidget.jsonKey, TableWidget.useFields, TableWidget.cellData, h]

theorem claim_C1_witness :
    (TableWidget.generateJsonRows
        ⟨⟨[[some "x".data]], 1, [some "H".data], [none]⟩, ["H".data], [], []⟩).length = 1 ∧
    ((TableWidget.generateJsonRows
        ⟨⟨[[some "x".data]], 1, [some "H".data], [none]⟩, ["H".data], [], []⟩).getD 0 []).getD 0
        ([], []) = ("H".data, "x".data) := by
  have h := claim_C1_json_keys ⟨⟨[[some "x".data]], 1, [some "H".data], [none]⟩, ["H".data], [], []⟩
  refine ⟨h.1, ?_⟩
  have h2 := h.2 0 0 (by decide) (by decide)
  rw [h2]
  decide

/-- The fallback state used to refute claim C2: one row, one column,
a configured header label but no field names. -/
def cexC2 : TableWidget :=
  ⟨⟨[[some "x".data]], 1, [some "Hdr".data], [none]⟩, ["Hdr".data], [], []⟩

/-- Claim C2 counterexample: with mismatched field names the CSV
output is just the data rows; it does not begin with a header line of
the header labels (here the first record is `x`, not `Hdr`). -/
theorem claim_C2_counterexample :
    ¬(cexC2.headers.length = cexC2.fieldNames.length ∧
        cexC2.fieldNames.length = cexC2.columnCount) ∧
    cexC2.model.headerData 0 = "Hdr".data ∧
    cexC2.generateCsvData = "x\n".data ∧
    cexC2.generateCsvData.take 3 ≠ "Hdr".data := by
  refine ⟨by decide, by decide, by decide, by decide⟩

/-- Claim C2 amended: when the field-name sequence does not have the
same length as both the header sequence and the current column count,
`generateCsvData` emits no header line at all: its output is exactly
the newline-terminated data records. -/
theorem claim_C2_no_header_line (s : TableWidget)
    (h : ¬(s.headers.length = s.fieldNames.length ∧
        s.fieldNames.length = s.columnCount)) :
    s.generateCsvData = s.csvDataRows := by
  have h' : ¬(s.headers.length = s.fieldNames.length ∧ s.fieldNames.length = s.model.cols) := h
  rw [TableWidget.generateCsvData, TableWidget.useFields, decide_eq_false h']
  simp

theorem claim_C2_witness : cexC2.generateCsvData = cexC2.csvDataRows :=
  claim_C2_no_header_line cexC2 (by decide)

/-- Claim C4: `CustomTableModel::flags` classifies a valid index
solely by its column: editable columns get
`Selectable | Editable | Enabled`, disabled columns get
`Selectable | Enabled`, all other columns get the toolkit's default
item flags; a column in both lists is treated as editable, and an
invalid index gets no flags. -/
theorem claim_C4_flags (e d : List Int) (row col : Int) :
    (col ∈ e →
      CustomTableModel.flags e d (some (row, col)) =
        (ItemIsSelectable ||| ItemIsEditable ||| ItemIsEnabled)) ∧
    (col ∉ e → col ∈ d →
      CustomTableModel.flags e d (some (row, col)) = (ItemIsSelectable ||| ItemIsEnabled)) ∧
    (col ∉ e → col ∉ d →
      CustomTableModel.flags e d (some (row, col)) = qtDefaultItemFlags) ∧
    (col ∈ e → col ∈ d →
      CustomTableModel.flags e d (some (row, col)) =
        (ItemIsSelectable ||| ItemIsEditable ||| ItemIsEnabled)) ∧
    CustomTableModel.flags e d none = 0 := by
  refine ⟨?_, ?_, ?_, ?_, rfl⟩
  · intro h1
    simp [CustomTableModel.flags, h1]
  · intro h1 h2
    simp [CustomTableModel.flags, h1, h2]
  · intro h1 h2
    simp [CustomTableModel.flags, h1, h2]
  · intro h1 _
    simp [CustomTableModel.flags, h1]

theorem claim_C4_witness :
    CustomTableModel.flags [0] [0, 1] (some (3, 0)) =
      (ItemIsSelectable ||| ItemIsEditable ||| ItemIsEnabled) ∧
    CustomTableModel.flags [0] [0, 1] (some (3, 1)) = (ItemIsSelectable ||| ItemIsEnabled) ∧
    CustomTableModel.flags [0] [0, 1] (some (3, 2)) = qtDefaultItemFlags :=
  ⟨(claim_C4_flags [0] [0, 1] 3 0).2.2.2.1 (by decide) (by decide),
    (claim_C4_flags [0] [0, 1] 3 1).2.1 (by decide) (by decide),
    (claim_C4_flags [0] [0, 1] 3 2).2.2.1 (by decide) (by decide)⟩

theorem Model.setRowCount_rowCount (m : Model) (n : Nat) : (m.setRowCount n).rowCount = n := by
  simp [Model.setRowCount, Model.rowCount]
  omega

theorem Model.setRowFrom_rowCount (m : Model) (r : Nat) (d : List Str) (n : Nat)
    (hr : r < m.rowCount) : (m.setRowFrom r d n).rowCount = m.rowCount := by
  induction n with
  | zero => rfl
  | succ n ih =>
    rw [Model.setRowFrom, Model.setItem_rowCount, ih]
    omega

theorem TableWidget.appendRow_rowCount (s : TableWidget) (d : List Str) :
    (s.appendRow d).rowCount = s.rowCount + 1 := by
  simp only [TableWidget.appendRow, TableWidget.rowCount]
  rw [Model.setRowData, Model.setRowFrom_rowCount _ _ _ _
      (by rw [Model.setRowCount_rowCount]; omega), Model.setRowCount_rowCount]

/-- Claim C8: the context-menu paste appends the tab-split clipboard
text as a row exactly when the clipboard is non-empty and the number
of tab-separated fields equals the current column count; in every
other case the grid is unchanged. -/
theorem claim_C8_paste (s : TableWidget) (clipboardText : Str) :
    (clipboardText ≠ [] → (splitChar '\t' clipboardText).length = s.columnCount →
      s.pasteFromClipboard clipboardText = s.appendRow (splitChar '\t' clipboardText) ∧
      (s.pasteFromClipboard clipboardText).rowCount = s.rowCount + 1) ∧
    (clipboardText = [] → s.pasteFromClipboard clipboardText = s) ∧
    (clipboardText ≠ [] → (splitChar '\t' clipboardText).length ≠ s.columnCount →
      s.pasteFromClipboard clipboardText = s) := by
  refine ⟨?_, ?_, ?_⟩
  · intro h1 h2
    have h2' : (splitChar '\t' clipboardText).length = s.model.cols := h2
    have heq : s.pasteFromClipboard clipboardText =
        s.appendRow (splitChar '\t' clipboardText) := by
      simp only [TableWidget.pasteFromClipboard]
      rw [if_neg h1, if_pos h2']
    exact ⟨heq, by rw [heq, TableWidget.appendRow_rowCount]⟩
  · intro h1
    simp only [TableWidget.pasteFromClipboard]
    rw [if_pos h1]
  · intro h1 h2
    have h2' : ¬((splitChar '\t' clipboardText).length = s.model.cols) := h2
    simp only [TableWidget.pasteFromClipboard]
    rw [if_neg h1, if_neg h2']

theorem claim_C8_witness :
    (TableWidget.pasteFromClipboard
        ⟨⟨[], 2, [none, none], []⟩, [], [], []⟩ "a\tb".data) =
      (TableWidget.appendRow ⟨⟨[], 2, [none, none], []⟩, [], [], []⟩
        (splitChar '\t' "a\tb".data)) ∧
    (TableWidget.pasteFromClipboard ⟨⟨[], 2, [none, none], []⟩, [], [], []⟩ []) =
      ⟨⟨[], 2, [none, none], []⟩, [], [], []⟩ ∧
    (TableWidget.pasteFromClipboard ⟨⟨[], 2, [none, none], []⟩, [], [], []⟩ "a".data) =
      ⟨⟨[], 2, [none, none], []⟩, [], [], []⟩ :=
  ⟨((claim_C8_paste ⟨⟨[], 2, [none, none], []⟩, [], [], []⟩ "a\tb".data).1
      (by decide) (by decide)).1,
    (claim_C8_paste ⟨⟨[], 2, [none, none], []⟩, [], [], []⟩ []).2.1 rfl,
    (claim_C8_paste ⟨⟨[], 2, [none, none], []⟩, [], [], []⟩ "a".data).2.2
      (by decide) (by decide)⟩

/-- Claim C9: `deleteRow` is total and atomic: an in-range (signed)
index removes exactly that row, shifting the later rows up by one and
leaving the column count, the headers and the field names unchanged;
every out-of-range index (negative or at least the row count) leaves
the whole widget state unchanged. -/
theorem claim_C9_deleteRow (s : TableWidget) (row : Int) :
    (0 ≤ row → row < (s.rowCount : Int) →
      (s.deleteRow row).rowCount = s.rowCount - 1 ∧
      (s.deleteRow row).columnCount = s.columnCount ∧
      (∀ i c, i < row.toNat → (s.deleteRow row).cellData i c = s.cellData i c) ∧
      (∀ i c, row.toNat ≤ i → (s.deleteRow row).cellData i c = s.cellData (i + 1) c) ∧
      (s.deleteRow row).headers = s.headers ∧
      (s.deleteRow row).fieldNames = s.fieldNames) ∧
    (¬(0 ≤ row ∧ row < (s.rowCount : Int)) → s.deleteRow row = s) := by
  constructor
  · intro h1 h2
    have hguard : 0 ≤ row ∧ row < (s.model.rowCount : Int) := ⟨h1, h2⟩
    have hdel : s.deleteRow row = { s with model := s.model.removeRow row.toNat } := by
      rw [TableWidget.deleteRow, if_pos hguard]
    have hlt : row.toNat < s.model.items.length := by
      have h2' : row < (s.model.items.length : Int) := h2
      omega
    refine ⟨?_, by rw [hdel]; rfl, ?_, ?_, by rw [hdel], by rw [hdel]⟩
    · rw [hdel]
      simp only [TableWidget.rowCount, Model.rowCount, Model.removeRow]
      rw [List.length_eraseIdx]
      simp [hlt]
    · intro i c hik
      rw [hdel]
      simp only [TableWidget.cellData, Model.data, Model.removeRow]
      rw [getD_eraseIdx, if_pos hik]
    · intro i c hik
      rw [hdel]
      simp only [TableWidget.cellData, Model.data, Model.removeRow]
      rw [getD_eraseIdx, if_neg (by omega)]
  · intro h
    rw [TableWidget.deleteRow, if_neg (by exact h)]

theorem claim_C9_witness :
    (TableWidget.deleteRow
        ⟨⟨[[some "a".data], [some "b".data]], 1, [none], [none, none]⟩, [], [], []⟩ 0).rowCount
        = 1 ∧
    (TableWidget.deleteRow
        ⟨⟨[[some "a".data], [some "b".data]], 1, [none], [none, none]⟩, [], [], []⟩ 0).cellData
        0 0 = "b".data ∧
    (TableWidget.deleteRow
        ⟨⟨[[some "a".data], [some "b".data]], 1, [none], [none, none]⟩, [], [], []⟩ (-3)) =
      ⟨⟨[[some "a".data], [some "b".data]], 1, [none], [none, none]⟩, [], [], []⟩ := by
  have h := claim_C9_deleteRow
    ⟨⟨[[some "a".data], [some "b".data]], 1, [none], [none, none]⟩, [], [], []⟩ 0
  have h2 := claim_C9_deleteRow
    ⟨⟨[[some "a".data], [some "b".data]], 1, [none], [none, none]⟩, [], [], []⟩ (-3)
  refine ⟨(h.1 (by decide) (by decide)).1, ?_, h2.2 (by decide)⟩
  have h3 := (h.1 (by decide) (by decide)).2.2.2.1 0 0 (by decide)
  rw [h3]
  decide

/-- Claim C7: `appendRow` increases the row count by exactly one, the
new row is the last row (holding `rowData.value(c)` per column), and
every pre-existing cell, the column count, the header data and the
stored headers and field names are unchanged. -/
theorem claim_C7_appendRow (s : TableWidget) (rowData : List Str) (hwf : s.model.WF) :
    (s.appendRow rowData).rowCount = s.rowCount + 1 ∧
    (s.appendRow rowData).columnCount = s.columnCount ∧
    (∀ c, c < s.columnCount →
      (s.appendRow rowData).cellData s.rowCount c = rowData.getD c []) ∧
    (∀ r c, r < s.rowCount → (s.appendRow rowData).cellData r c = s.cellData r c) ∧
    (∀ c, (s.appendRow rowData).model.headerData c = s.model.headerData c) ∧
    (s.appendRow rowData).headers = s.headers ∧
    (s.appendRow rowData).fieldNames = s.fieldNames := by
  rw [TableWidget.appendRow_eq s rowData hwf]
  refine ⟨?_, rfl, ?_, ?_, fun c => rfl, rfl, rfl⟩
  · simp [TableWidget.rowCount, Model.rowCount]
  · intro c hc
    simp only [TableWidget.cellData, Model.data, TableWidget.rowCount, Model.rowCount,
      TableWidget.columnCount] at hc ⊢
    rw [getD_append_ge _ _ _ _ (Nat.le_refl _), Nat.sub_self, List.getD_cons_zero,
      fullRow_getD, if_pos hc]
    rfl
  · intro r c hr
    simp only [TableWidget.cellData, Model.data, TableWidget.rowCount, Model.rowCount] at hr ⊢
    rw [getD_append_lt _ _ _ _ hr]

theorem claim_C7_witness :
    (TableWidget.appendRow
        ⟨⟨[[some "a".data, some "b".data]], 2, [some "H1".data, none], [none]⟩,
          ["H1".data, "H2".data], ["h1".data], []⟩ ["c".data]).rowCount = 2 ∧
    (TableWidget.appendRow
        ⟨⟨[[some "a".data, some "b".data]], 2, [some "H1".data, none], [none]⟩,
          ["H1".data, "H2".data], ["h1".data], []⟩ ["c".data]).cellData 1 0 = "c".data ∧
    (TableWidget.appendRow
        ⟨⟨[[some "a".data, some "b".data]], 2, [some "H1".data, none], [none]⟩,
          ["H1".data, "H2".data], ["h1".data], []⟩ ["c".data]).cellData 1 1 = [] ∧
    (TableWidget.appendRow
        ⟨⟨[[some "a".data, some "b".data]], 2, [some "H1".data, none], [none]⟩,
          ["H1".data, "H2".data], ["h1".data], []⟩ ["c".data]).cellData 0 1 = "b".data := by
  have h := claim_C7_appendRow
    ⟨⟨[[some "a".data, some "b".data]], 2, [some "H1".data, none], [none]⟩,
      ["H1".data, "H2".data], ["h1".data], []⟩ ["c".data] (by decide)
  exact ⟨h.1, h.2.2.1 0 (by decide), h.2.2.1 1 (by decide), h.2.2.2.1 0 1 (by decide)⟩

theorem appendRow_model_WF (s : TableWidget) (d : List Str) (hwf : s.model.WF) :
    (s.appendRow d).model.WF := by
  rw [TableWidget.appendRow_eq_singleton, TableWidget.appendRows_eq s [d] hwf]
  exact appendRows_result_WF s.model [d] hwf

theorem appendRows_model_WF (s : TableWidget) (l : List (List Str)) (hwf : s.model.WF) :
    (s.appendRows l).model.WF := by
  rw [TableWidget.appendRows_eq s l hwf]
  exact appendRows_result_WF s.model l hwf

/-- Claim C6: bulk append refines iterated single append: from every
well-formed grid state, `appendRows(rowsData)` produces exactly the
same widget state as one `appendRow` per element of `rowsData` in
sequence order. -/
theorem claim_C6_appendRows_foldl (s : TableWidget) (rowsData : List (List Str))
    (hwf : s.model.WF) :
    s.appendRows rowsData = rowsData.foldl TableWidget.appendRow s := by
  induction rowsData generalizing s with
  | nil => rw [List.foldl_nil, TableWidget.appendRows_nil s hwf]
  | cons d rest ih =>
    have hwfA : (s.appendRow d).model.WF := appendRow_model_WF s d hwf
    have hwfL : Model.WF
        ⟨s.model.items ++ [fullRow s.model.cols d], s.model.cols, s.model.hlabels,
          s.model.vlabels ++ [none]⟩ := by
      obtain ⟨hrect, hh, hv⟩ := hwf
      refine ⟨?_, by simpa using hh, by simp [hv]⟩
      intro rowv hrowv
      dsimp only at hrowv ⊢
      rcases List.mem_append.mp hrowv with hm | hm
      · exact hrect _ hm
      · rw [List.mem_singleton.mp hm]
        exact fullRow_length _ _
    rw [List.foldl_cons, ← ih (s.appendRow d) hwfA]
    rw [TableWidget.appendRow_eq s d hwf]
    rw [TableWidget.appendRows_eq s (d :: rest) hwf]
    rw [TableWidget.appendRows_eq
      { s with model :=
        ⟨s.model.items ++ [fullRow s.model.cols d], s.model.cols, s.model.hlabels,
          s.model.vlabels ++ [none]⟩ } rest hwfL]
    refine widget_fields_ext _ _ ?_ rfl rfl rfl
    refine model_fields_ext _ _ ?_ rfl rfl ?_
    · dsimp only
      simp
    · dsimp only
      simp [List.replicate_succ]

theorem claim_C6_witness :
    TableWidget.appendRows ⟨⟨[[some "a".data]], 1, [none], [none]⟩, [], [], []⟩
        [["b".data], ["c".data, "x".data]] =
      List.foldl TableWidget.appendRow ⟨⟨[[some "a".data]], 1, [none], [none]⟩, [], [], []⟩
        [["b".data], ["c".data, "x".data]] :=
  claim_C6_appendRows_foldl ⟨⟨[[some "a".data]], 1, [none], [none]⟩, [], [], []⟩
    [["b".data], ["c".data, "x".data]] (by decide)

/-- Claim C10: every mutation (`setData`, `appendRow`, `appendRows`,
`deleteRow`) keeps each item row with exactly `columnCount` cells; an
appended row holds `rowData.value(c)` per column, so an input row
shorter than the column count is padded with empty strings and
entries beyond the column count are ignored. -/
theorem claim_C10_rectangular (s : TableWidget) (data rowsData : List (List Str))
    (rowData : List Str) (row : Int) (hwf : s.model.WF) :
    (∀ rowv ∈ (s.setData data).model.items, rowv.length = (s.setData data).columnCount) ∧
    (∀ rowv ∈ (s.appendRow rowData).model.items,
      rowv.length = (s.appendRow rowData).columnCount) ∧
    (∀ rowv ∈ (s.appendRows rowsData).model.items,
      rowv.length = (s.appendRows rowsData).columnCount) ∧
    (∀ rowv ∈ (s.deleteRow row).model.items, rowv.length = (s.deleteRow row).columnCount) ∧
    (∀ c, c < s.columnCount →
      (s.appendRow rowData).cellData s.rowCount c = rowData.getD c []) ∧
    (∀ i, i < rowsData.length → ∀ c, c < s.columnCount →
      (s.appendRows rowsData).cellData (s.rowCount + i) c = (rowsData.getD i []).getD c []) := by
  have hlen : 0 + data.length ≤ (preModel s data).rowCount := by
    simp only [preModel, Model.rowCount, List.length_replicate, preRows]
    split <;> omega
  obtain ⟨hc, hrows, hwfA, hhd, hvl, hdata⟩ :=
    Model.setAllCells_obs data (preModel s data) 0 (preModel_WF s data) hlen
  refine ⟨?_, ?_, ?_, ?_, ?_, ?_⟩
  · rw [TableWidget.setData_eq s data]
    exact hwfA.1
  · exact (appendRow_model_WF s rowData hwf).1
  · exact (appendRows_model_WF s rowsData hwf).1
  · intro rowv hrowv
    rw [TableWidget.deleteRow] at hrowv ⊢
    by_cases hg : 0 ≤ row ∧ row < (s.model.rowCount : Int)
    · rw [if_pos hg] at hrowv ⊢
      exact hwf.1 _ ((List.eraseIdx_sublist _ _).subset hrowv)
    · rw [if_neg hg] at hrowv ⊢
      exact hwf.1 _ hrowv
  · intro c hc2
    rw [TableWidget.appendRow_eq s rowData hwf]
    simp only [TableWidget.cellData, Model.data, TableWidget.rowCount, Model.rowCount,
      TableWidget.columnCount] at hc2 ⊢
    rw [getD_append_ge _ _ _ _ (Nat.le_refl _), Nat.sub_self, List.getD_cons_zero,
      fullRow_getD, if_pos hc2]
    rfl
  · intro i hi c hc2
    rw [TableWidget.appendRows_eq s rowsData hwf]
    simp only [TableWidget.cellData, Model.data, TableWidget.rowCount, Model.rowCount,
      TableWidget.columnCount] at hc2 ⊢
    rw [getD_append_ge _ _ _ _ (Nat.le_add_right _ _),
      show s.model.items.length + i - s.model.items.length = i from by omega,
      getD_map (fullRow s.model.cols) rowsData i _ [] hi, fullRow_getD, if_pos hc2]
    rfl

theorem claim_C10_witness :
    (∀ rowv ∈ (TableWidget.setData ⟨⟨[], 0, [], []⟩, [], [], []⟩
        [["a".data], ["b".data, "c".data]]).model.items,
      rowv.length = (TableWidget.setData ⟨⟨[], 0, [], []⟩, [], [], []⟩
        [["a".data], ["b".data, "c".data]]).columnCount) ∧
    (TableWidget.appendRow ⟨⟨[], 2, [none, none], []⟩, [], [], []⟩
        ["x".data]).cellData 0 1 = [] := by
  have h1 := claim_C10_rectangular ⟨⟨[], 0, [], []⟩, [], [], []⟩
    [["a".data], ["b".data, "c".data]] [] [] 0 (by decide)
  have h2 := claim_C10_rectangular ⟨⟨[], 2, [none, none], []⟩, [], [], []⟩
    [] [] ["x".data] 0 (by decide)
  exact ⟨h1.1, h2.2.2.2.2.1 1 (by decide)⟩

theorem preModel_data (s : TableWidget) (data : List (List Str)) (i j : Nat) :
    (preModel s data).data i j = [] := by
  simp only [preModel, Model.data]
  rw [getD_replicate]
  split
  · rw [getD_replicate]
    split <;> rfl
  · rfl

theorem preModel_headerData (s : TableWidget) (data : List (List Str)) (c : Nat)
    (hc : c < s.headers.length) :
    (preModel s data).headerData c = s.headers.getD c [] := by
  rw [Model.headerData]
  simp only [preModel]
  rw [getD_append_lt _ _ _ _ (by simpa using hc), getD_map some _ _ _ [] hc]
  rfl

theorem preModel_verticalHeaderData (s : TableWidget) (data : List (List Str)) (r : Nat)
    (hvne : s.verticalHeaders ≠ []) (hr : r < s.verticalHeaders.length) :
    (preModel s data).verticalHeaderData r = s.verticalHeaders.getD r [] := by
  rw [Model.verticalHeaderData]
  simp only [preModel, List.isEmpty_iff, hvne, if_neg, if_false]
  rw [getD_append_lt _ _ _ _ (by simpa using hr), getD_map some _ _ _ [] hr]
  rfl

/-- The state used to refute claim C5: two configured header labels
but a single one-cell data row. -/
def cexC5 : TableWidget := ⟨Model.clear, ["A".data, "B".data], [], []⟩

/-- Claim C5 counterexample: `setData([["x"]])` on a widget with two
configured headers yields column count 2, not the first row's size 1,
because `resetHeaders` re-applies both header labels and
`setHorizontalHeaderLabels` grows the column count to the label
count. -/
theorem claim_C5_counterexample :
    (cexC5.setData [["x".data]]).columnCount = 2 ∧
    (cexC5.setData [["x".data]]).columnCount ≠ 1 := by
  refine ⟨by decide, by decide⟩

/-- Claim C5 amended: `setData(data)` resets the grid. The row count
is `data.size()`, except that configured vertical headers grow it to
their count when they are more numerous; the column count is the
maximum of the configured header count and the sizes of all rows of
`data` (hence `data[0].size()` for rectangular data with no longer
header list, and 0 when both are empty); every cell `(r, c)` with
`c < data[r].size()` holds `data[r][c]` and every other cell is
empty — no previous cell contents survive; the stored horizontal (and
any vertical) header labels are restored; the stored headers and
field names are unchanged. -/
theorem claim_C5_setData (s : TableWidget) (data : List (List Str)) :
    (s.setData data).rowCount =
      (if s.verticalHeaders = [] then data.length
        else max data.length s.verticalHeaders.length) ∧
    (s.setData data).columnCount =
      max s.headers.length (data.foldl (fun a row => max a row.length) 0) ∧
    (∀ r c, r < data.length → c < (data.getD r []).length →
      (s.setData data).cellData r c = (data.getD r []).getD c []) ∧
    (∀ r c, ¬(r < data.length ∧ c < (data.getD r []).length) →
      (s.setData data).cellData r c = []) ∧
    (∀ c, c < s.headers.length →
      (s.setData data).model.headerData c = s.headers.getD c []) ∧
    (s.verticalHeaders ≠ [] → ∀ r, r < s.verticalHeaders.length →
      (s.setData data).model.verticalHeaderData r = s.verticalHeaders.getD r []) ∧
    (s.setData data).headers = s.headers ∧
    (s.setData data).fieldNames = s.fieldNames := by
  have hlen : 0 + data.length ≤ (preModel s data).rowCount := by
    simp only [preModel, Model.rowCount, List.length_replicate, preRows]
    split <;> omega
  obtain ⟨hc, hrows, hwfA, hhd, hvl, hdata⟩ :=
    Model.setAllCells_obs data (preModel s data) 0 (preModel_WF s data) hlen
  rw [TableWidget.setData_eq s data]
  refine ⟨?_, ?_, ?_, ?_, ?_, ?_, rfl, rfl⟩
  · show ((preModel s data).setAllCells 0 data).rowCount = _
    rw [hrows]
    simp only [preModel, Model.rowCount, List.length_replicate, preRows]
    by_cases hv : s.verticalHeaders = []
    · simp [hv]
    · simp [List.isEmpty_iff, hv]
  · show ((preModel s data).setAllCells 0 data).cols = _
    rw [hc]
    simp only [preModel, preCols]
    rw [foldl_maxlen_init,
      show s.headers.length = max s.headers.length 0 from (Nat.max_zero _).symm,
      foldl_maxlen_init]
    have h1 := firstRowLen_le_foldl data
    omega
  · intro r c hr hc2
    show ((preModel s data).setAllCells 0 data).data r c = _
    have hd := hdata r c
    simp only [Nat.sub_zero, Nat.zero_add] at hd
    rw [hd, if_pos ⟨Nat.zero_le _, hr, hc2⟩]
  · intro r c hcon
    show ((preModel s data).setAllCells 0 data).data r c = _
    have hd := hdata r c
    simp only [Nat.sub_zero, Nat.zero_add] at hd
    rw [hd, if_neg (by tauto)]
    exact preModel_data s data r c
  · intro c hc2
    show ((preModel s data).setAllCells 0 data).headerData c = _
    rw [hhd c]
    exact preModel_headerData s data c hc2
  · intro hvne r hr
    show ((preModel s data).setAllCells 0 data).verticalHeaderData r = _
    rw [Model.verticalHeaderData, hvl, ← Model.verticalHeaderData]
    exact preModel_verticalHeaderData s data r hvne hr

theorem claim_C5_witness :
    (TableWidget.setData
        ⟨⟨[[some "z".data]], 1, [some "Z".data], [none]⟩, ["A".data, "B".data], ["a".data], []⟩
        [["x".data, "y".data], ["w".data]]).rowCount = 2 ∧
    (TableWidget.setData
        ⟨⟨[[some "z".data]], 1, [some "Z".data], [none]⟩, ["A".data, "B".data], ["a".data], []⟩
        [["x".data, "y".data], ["w".data]]).columnCount = 2 ∧
    (TableWidget.setData
        ⟨⟨[[some "z".data]], 1, [some "Z".data], [none]⟩, ["A".data, "B".data], ["a".data], []⟩
        [["x".data, "y".data], ["w".data]]).cellData 1 0 = "w".data ∧
    (TableWidget.setData
        ⟨⟨[[some "z".data]], 1, [some "Z".data], [none]⟩, ["A".data, "B".data], ["a".data], []⟩
        [["x".data, "y".data], ["w".data]]).cellData 1 1 = [] ∧
    (TableWidget.setData
        ⟨⟨[[some "z".data]], 1, [some "Z".data], [none]⟩, ["A".data, "B".data], ["a".data], []⟩
        [["x".data, "y".data], ["w".data]]).model.headerData 1 = "B".data := by
  have h := claim_C5_setData
    ⟨⟨[[some "z".data]], 1, [some "Z".data], [none]⟩, ["A".data, "B".data], ["a".data], []⟩
    [["x".data, "y".data], ["w".data]]
  refine ⟨?_, ?_, ?_, ?_, ?_⟩
  · rw [h.1]
    decide
  · rw [h.2.1]
    decide
  · rw [h.2.2.1 1 0 (by decide) (by decide)]
    decide
  · exact h.2.2.2.1 1 1 (by decide)
  · rw [h.2.2.2.2.1 1 (by decide)]
    decide

/-- The degenerate grid used to refute claim C3: one row and zero
columns. Its data-row output is a single bare newline, which parses
back as one row holding one empty field rather than zero fields. -/
def cexC3 : TableWidget := ⟨⟨[[]], 0, [], [none]⟩, [], [], []⟩

/-- Claim C3 counterexample: the round trip fails on a grid with rows
but no columns, whose cells vacuously contain no double quote and no
newline: parsing the data rows yields `[[""]]` while the grid's cells
are `[[]]`. -/
theorem claim_C3_counterexample :
    (∀ r, r < cexC3.rowCount → ∀ c, c < cexC3.columnCount →
      ('"' : Char) ∉ cexC3.cellData r c ∧ ('\n' : Char) ∉ cexC3.cellData r c) ∧
    cexC3.gridCells = [[]] ∧
    parseCsvRows cexC3.csvDataRows = [[[]]] ∧
    parseCsvRows cexC3.csvDataRows ≠ cexC3.gridCells := by
  refine ⟨by decide, by decide, by decide, by decide⟩

/-- Claim C3 amended: for every grid with at least one column whose
cell values contain no double quote and no newline, parsing the data
rows of `generateCsvData`'s output (splitting records on newlines and
fields on commas outside double quotes, then stripping one
surrounding pair of double quotes from each field) recovers exactly
the original cell values in the original row and column order. -/
theorem claim_C3_csv_roundtrip (s : TableWidget) (hcols : 1 ≤ s.columnCount)
    (hclean : ∀ r, r < s.rowCount → ∀ c, c < s.columnCount →
      ('"' : Char) ∉ s.cellData r c ∧ ('\n' : Char) ∉ s.cellData r c) :
    parseCsvRows s.csvDataRows = s.gridCells := by
  have hcols' : 1 ≤ s.model.cols := hcols
  rw [show s.csvDataRows =
      (s.gridCells.map fun cells => csvRecord cells ++ ['\n']).flatten from rfl]
  apply parseCsvRows_flatten
  · intro r hr
    obtain ⟨i, hi, rfl⟩ := List.mem_map.mp hr
    intro hcon
    have hlen : ((List.range s.model.cols).map fun c => s.model.data i c).length = 0 := by
      rw [hcon]
      rfl
    simp at hlen
    omega
  · intro r hr v hv
    obtain ⟨i, hi, rfl⟩ := List.mem_map.mp hr
    obtain ⟨c, hcc, rfl⟩ := List.mem_map.mp hv
    exact hclean i (List.mem_range.mp hi) c (List.mem_range.mp hcc)

theorem claim_C3_witness :
    parseCsvRows
        (TableWidget.csvDataRows
          ⟨⟨[[some "a,b".data, some "c".data], [some [], some "d".data]], 2,
            [none, none], [none, none]⟩, [], [], []⟩) =
      TableWidget.gridCells
        ⟨⟨[[some "a,b".data, some "c".data], [some [], some "d".data]], 2,
          [none, none], [none, none]⟩, [], [], []⟩ :=
  claim_C3_csv_roundtrip
    ⟨⟨[[some "a,b".data, some "c".data], [some [], some "d".data]], 2,
      [none, none], [none, none]⟩, [], [], []⟩ (by decide) (by decide)
